import Mathlib

/-!
Verification of the fuzzy music-pattern search backend.

This file gives a shallow embedding, in Lean 4, of the degree library, the
duration/pitch domain model, the query-parameter extractor, the clause
builder and the ranking engine of the repository, and proves or refutes the
frozen specification claims about them.

Conventions of the embedding:
* Python floats are modelled as rationals (`ℚ`); all arithmetic in the
  modelled code paths is exact, so this is faithful.
* Fallible Python code (exceptions) is modelled with `Except PyErr`.
* Python string formatting that merely renders values for display is kept as
  structured data (the rendered values themselves), not as strings.
-/

/-- Python exception kinds that the modelled code can raise. -/
inductive PyErr where
  | typeError
  | valueError
  | keyError
  | indexError
  | zeroDivisionError
deriving DecidableEq, Repr

/-- Python `list.index`: the index of the first occurrence, `ValueError` when
the element is absent. -/
def pyIndex {α : Type} [DecidableEq α] : List α → α → Except PyErr ℕ
  | [], _ => .error .valueError
  | x :: xs, a =>
    if x = a then .ok 0
    else match pyIndex xs a with
      | .ok n => .ok (n + 1)
      | .error e => .error e

/-- The chromatic scale used throughout `fuzzy_computation.py`
(`notes = ['c', 'c#', 'd', 'd#', 'e', 'f', 'f#', 'g', 'g#', 'a', 'a#', 'b']`). -/
def notes_semitones : List String :=
  ["c", "c#", "d", "d#", "e", "f", "f#", "g", "g#", "a", "a#", "b"]

/-- The note letters accepted by the `split_note_accidental` regular
expression `[a-gA-G]`. -/
def noteLetters : List Char :=
  ['a', 'b', 'c', 'd', 'e', 'f', 'g', 'A', 'B', 'C', 'D', 'E', 'F', 'G']

/-- The accidental strings accepted by the `split_note_accidental` regular
expression `(#|s|b|n|x|bb)?`. -/
def accidStrings : List String := ["#", "s", "b", "n", "x", "bb"]

/-- `fuzzy_computation.split_note_accidental`: splits a note string into its
base letter (lower-cased) and its accidental, following the regular
expression `^([a-gA-G])((#|s|b|n|x|bb)?)$`; an empty accidental becomes
`None` and `'#'` is renamed to `'s'`; any other string raises `ValueError`. -/
def split_note_accidental (note : String) : Except PyErr (String × Option String) :=
  match note.data with
  | [c] =>
    if c ∈ noteLetters then .ok (String.mk [c.toLower], none) else .error .valueError
  | c :: rest =>
    if c ∈ noteLetters ∧ String.mk rest ∈ accidStrings then
      .ok (String.mk [c.toLower],
           some (if String.mk rest = "#" then "s" else String.mk rest))
    else .error .valueError
  | [] => .error .valueError

/-- `fuzzy_computation.sharpen`: the chromatic successor of a base note. -/
def sharpen (base_note : String) : Except PyErr String := do
  let i ← pyIndex notes_semitones base_note
  .ok (notes_semitones.getD ((i + 1) % notes_semitones.length) "")

/-- `fuzzy_computation.flatten`: the chromatic predecessor of a base note
(Python `%` is nonnegative, hence `(i - 1) % 12` is modelled with `Int.emod`). -/
def flatten (base_note : String) : Except PyErr String := do
  let i ← pyIndex notes_semitones base_note
  .ok (notes_semitones.getD (((i : ℤ) - 1).emod notes_semitones.length).toNat "")

/-- `fuzzy_computation.convert_note_to_sharp`: converts a note with any
accidental to its enharmonically equivalent sharp spelling. -/
def convert_note_to_sharp (note : String) : Except PyErr String := do
  let (base_note, accidental) ← split_note_accidental note
  match accidental with
  | none => .ok base_note
  | some a =>
    if a = "s" ∨ a = "#" then sharpen base_note
    else if a = "b" ∨ a = "f" then flatten base_note
    else if a = "n" then .ok base_note
    else if a = "x" then do sharpen (← sharpen base_note)
    else if a = "bb" then do flatten (← flatten base_note)
    else .error .valueError

/-- The `semitones_from_c` dictionary of `note_distance_in_tones`. -/
def semitones_from_c (note : String) : Except PyErr ℕ :=
  match pyIndex notes_semitones note with
  | .ok i => .ok i
  | .error _ => .error .keyError

/-- `fuzzy_computation.note_distance_in_tones`: the distance, in tones,
between two optionally-specified notes with optionally-specified octaves. -/
def note_distance_in_tones (note1 : Option String) (octave1 : Option ℤ)
    (note2 : Option String) (octave2 : Option ℤ) : Except PyErr ℚ :=
  match note1, note2 with
  | none, _ | _, none =>
    match octave1, octave2 with
    | none, _ | _, none => .ok 0
    | some o1, some o2 => .ok (12 * |(o2 : ℚ) - o1| / 2)
  | some n1, some n2 => do
    let n1 ← convert_note_to_sharp n1
    let n2 ← convert_note_to_sharp n2
    let (o1, o2) : ℤ × ℤ :=
      match octave1, octave2 with
      | none, none => (4, 4)
      | none, some o2 => (o2, o2)
      | some o1, none => (o1, o1)
      | some o1, some o2 => (o1, o2)
    let s1 ← semitones_from_c n1
    let s2 ← semitones_from_c n2
    let semitone1 : ℤ := s1 + o1 * 12
    let semitone2 : ℤ := s2 + o2 * 12
    .ok (|(semitone2 : ℚ) - semitone1| / 2)

/-- `fuzzy_computation.pitch_degree`: the five-parameter pitch degree
function; `1.0` when the tolerance is zero, otherwise
`max(1 - distance/pitch_gap, 0)`. -/
def pitch_degree (note1 : Option String) (octave1 : Option ℤ)
    (note2 : Option String) (octave2 : Option ℤ) (pitch_gap : ℚ) :
    Except PyErr ℚ :=
  if pitch_gap = 0 then .ok 1
  else do
    let dist ← note_distance_in_tones note1 octave1 note2 octave2
    .ok (max (1 - dist / pitch_gap) 0)

/-- An interval value as produced by `calculate_intervals_list`: Python
`None`, the literal string `'NA'`, or a number of tones. -/
inductive IntervalVal where
  | undef
  | na
  | val (q : ℚ)
deriving DecidableEq, Repr

/-- `fuzzy_computation.pitch_degree_with_intervals`: degree between a query
interval and a result interval; `'NA'` is neither `None` nor a number, so
Python raises `TypeError` on `abs('NA' - x)`. -/
def pitch_degree_with_intervals (interval1 : IntervalVal) (interval2 : Option ℚ)
    (pitch_gap : ℚ) : Except PyErr ℚ :=
  if pitch_gap = 0 ∨ interval1 = .undef ∨ interval2 = none then .ok 1
  else
    match interval1, interval2 with
    | .val v1, some v2 => .ok (max (1 - |v1 - v2| / pitch_gap) 0)
    | _, _ => .error .typeError

/-- `fuzzy_computation.duration_degree_with_multiplicative_factor` on numeric
arguments: `1.0` when `factor == 1` or the expected duration is `None`,
otherwise the unclamped affine value `a*z + b` with `a = -1/(factor-1)`,
`b = 1 - a` and `z = max(expected/actual, actual/expected)`; a zero duration
raises `ZeroDivisionError`. -/
def duration_degree_with_multiplicative_factor (expected_duration : Option ℚ)
    (duration : ℚ) (factor : ℚ) : Except PyErr ℚ :=
  if factor = 1 ∨ expected_duration = none then .ok 1
  else
    match expected_duration with
    | none => .ok 1
    | some e =>
      if duration = 0 ∨ e = 0 then .error .zeroDivisionError
      else
        let a : ℚ := -1 / (factor - 1)
        let b : ℚ := 1 - a
        .ok (a * max (e / duration) (duration / e) + b)

/-- `fuzzy_computation.sequencing_degree`: `1.0` when `max_gap == 0`,
otherwise `max(1 - (start2 - end1)/max_gap, 0)`. -/
def sequencing_degree (end_time1 start_time2 max_gap : ℚ) : ℚ :=
  if max_gap = 0 then 1
  else max (1 - (start_time2 - end_time1) / max_gap) 0

deriving instance DecidableEq for Except

/-- Bind on an `ok` value reduces to the continuation. -/
theorem pyBind_ok {α β : Type} (a : α) (f : α → Except PyErr β) :
    (Except.ok a >>= f) = f a := rfl

/-- Bind on an error propagates the error. -/
theorem pyBind_err {α β : Type} (e : PyErr) (f : α → Except PyErr β) :
    ((Except.error e : Except PyErr α) >>= f) = .error e := rfl

/-- A successfully computed note distance is nonnegative. -/
theorem note_distance_in_tones_nonneg {n1 n2 : Option String} {o1 o2 : Option ℤ}
    {d : ℚ} (h : note_distance_in_tones n1 o1 n2 o2 = .ok d) : 0 ≤ d := by
  unfold note_distance_in_tones at h
  simp only [bind, Except.bind] at h
  repeat' split at h
  all_goals cases h
  all_goals positivity

/-- Evaluation helper: converting `"c"` is the identity. -/
theorem conv_sharp_c : convert_note_to_sharp "c" = .ok "c" := by decide

/-- Evaluation helper: converting `"d"` is the identity. -/
theorem conv_sharp_d : convert_note_to_sharp "d" = .ok "d" := by decide

/-- Evaluation helper: semitone offset of `"c"`. -/
theorem semi_from_c_c : semitones_from_c "c" = .ok 0 := by decide

/-- Evaluation helper: semitone offset of `"d"`. -/
theorem semi_from_c_d : semitones_from_c "d" = .ok 2 := by decide

/-- Evaluation helper: the distance from c4 to d4 is one tone. -/
theorem note_distance_c4_d4 :
    note_distance_in_tones (some "c") (some 4) (some "d") (some 4) = .ok 1 := by
  rw [note_distance_in_tones]
  norm_num [conv_sharp_c, conv_sharp_d, semi_from_c_c, semi_from_c_d, pyBind_ok]

/-- C1, counterexample: `duration_degree_with_multiplicative_factor` is not
clamped to `[0,1]`: on expected duration `1`, actual duration `4` and factor
`2` it returns `-2`, which is below `0`. -/
theorem claim_C1_counterexample :
    duration_degree_with_multiplicative_factor (some 1) 4 2 = .ok (-2) ∧
    ¬ (0 ≤ (-2 : ℚ)) := by
  rw [duration_degree_with_multiplicative_factor]
  norm_num [Option.some_ne_none]

/-- C1, amended: `pitch_degree` never raises on inputs whose note distance is
computable and stays in `[0,1]` for a nonnegative tolerance;
`sequencing_degree` never raises and stays in `[0,1]` for a nonnegative gap
when the second note does not start before the first one ends; and
`duration_degree_with_multiplicative_factor` never raises on nonzero
durations but returns the unclamped affine value `a*z + b`, which lies in
`[0,1]` only when `factor > 1` and the ratio deviation `z` is at most
`factor`. -/
theorem claim_C1_amended :
    (∀ (n1 n2 : Option String) (o1 o2 : Option ℤ) (gap d : ℚ),
        note_distance_in_tones n1 o1 n2 o2 = .ok d → 0 ≤ gap →
        ∃ r, pitch_degree n1 o1 n2 o2 gap = .ok r ∧ 0 ≤ r ∧ r ≤ 1) ∧
    (∀ e1 s2 g : ℚ, 0 ≤ g → e1 ≤ s2 →
        0 ≤ sequencing_degree e1 s2 g ∧ sequencing_degree e1 s2 g ≤ 1) ∧
    (∀ e dur factor : ℚ, 0 < e → 0 < dur → factor ≠ 1 →
        duration_degree_with_multiplicative_factor (some e) dur factor =
          .ok (-1 / (factor - 1) * max (e / dur) (dur / e) + (1 - -1 / (factor - 1))) ∧
        (1 < factor → max (e / dur) (dur / e) ≤ factor →
          0 ≤ -1 / (factor - 1) * max (e / dur) (dur / e) + (1 - -1 / (factor - 1)) ∧
          -1 / (factor - 1) * max (e / dur) (dur / e) + (1 - -1 / (factor - 1)) ≤ 1)) := by
  refine ⟨?_, ?_, ?_⟩
  · intro n1 n2 o1 o2 gap d hd hgap
    rcases eq_or_lt_of_le hgap with hz | hpos
    · refine ⟨1, ?_, by norm_num, by norm_num⟩
      simp [pitch_degree, ← hz]
    · have hne : gap ≠ 0 := ne_of_gt hpos
      refine ⟨max (1 - d / gap) 0, ?_, le_max_right _ _, ?_⟩
      · simp [pitch_degree, if_neg hne, hd, pyBind_ok]
      · have hdn : 0 ≤ d := note_distance_in_tones_nonneg hd
        have : 0 ≤ d / gap := div_nonneg hdn (le_of_lt hpos)
        exact max_le (by linarith) (by norm_num)
  · intro e1 s2 g hg h12
    rw [sequencing_degree]
    split
    · norm_num
    · have hgpos : 0 < g := lt_of_le_of_ne hg (by intro h; exact (by assumption : ¬ g = 0) h.symm)
      have : 0 ≤ (s2 - e1) / g := div_nonneg (by linarith) (le_of_lt hgpos)
      constructor
      · exact le_max_right _ _
      · exact max_le (by linarith) (by norm_num)
  · intro e dur factor he hdur hf
    have hval : duration_degree_with_multiplicative_factor (some e) dur factor =
        .ok (-1 / (factor - 1) * max (e / dur) (dur / e) + (1 - -1 / (factor - 1))) := by
      rw [duration_degree_with_multiplicative_factor]
      rw [if_neg (by simp [hf])]
      rw [if_neg (by push_neg; exact ⟨ne_of_gt hdur, ne_of_gt he⟩)]
    refine ⟨hval, ?_⟩
    intro hf1 hzf
    have hA : 0 < factor - 1 := by linarith
    set z := max (e / dur) (dur / e) with hzdef
    have hz1 : 1 ≤ z := by
      rcases le_or_lt 1 (e / dur) with h | h
      · exact le_trans h (le_max_left _ _)
      · have : e < dur := by
          have := (div_lt_one hdur).mp h
          linarith
        have : 1 ≤ dur / e := by
          rw [le_div_iff₀ he]
          linarith
        exact le_trans this (le_max_right _ _)
    have key : -1 / (factor - 1) * z + (1 - -1 / (factor - 1)) = 1 + (1 - z) / (factor - 1) := by
      field_simp
      ring
    rw [key]
    constructor
    · have : (z - 1) / (factor - 1) ≤ 1 := by
        rw [div_le_one hA]
        linarith
      have hneg : (1 - z) / (factor - 1) = -((z - 1) / (factor - 1)) := by ring
      rw [hneg]
      linarith
    · have : (1 - z) / (factor - 1) ≤ 0 :=
        div_nonpos_iff.mpr (Or.inr ⟨by linarith, by linarith⟩)
      linarith

/-- C1, witness: the amended theorem applied at concrete inputs. -/
theorem claim_C1_amended_witness :
    (∃ r, pitch_degree (some "c") (some 4) (some "d") (some 4) 2 = .ok r ∧ 0 ≤ r ∧ r ≤ 1) ∧
    (0 ≤ sequencing_degree 1 (9/8) (1/4) ∧ sequencing_degree 1 (9/8) (1/4) ≤ 1) ∧
    (duration_degree_with_multiplicative_factor (some (1/2)) (1/4) 2 =
      .ok (-1 / ((2:ℚ) - 1) * max ((1/2) / (1/4)) ((1/4) / (1/2)) + (1 - -1 / ((2:ℚ) - 1)))) :=
  ⟨claim_C1_amended.1 (some "c") (some "d") (some 4) (some 4) 2 1 note_distance_c4_d4 (by norm_num),
   claim_C1_amended.2.1 1 (9/8) (1/4) (by norm_num) (by norm_num),
   (claim_C1_amended.2.2 (1/2) (1/4) 2 (by norm_num) (by norm_num) (by norm_num)).1⟩

/-- C3, counterexample: on expected `0.25`, actual `0.125` and factor `0.5`
the function returns `3.0`, not `0.0` as the specification example states. -/
theorem claim_C3_counterexample :
    duration_degree_with_multiplicative_factor (some (1/4)) (1/8) (1/2) = .ok 3 ∧
    (3 : ℚ) ≠ 0 := by
  rw [duration_degree_with_multiplicative_factor]
  norm_num [Option.some_ne_none]

/-- C3, amended: the code does not normalize a factor below `1` to its
reciprocal, so `duration_degree_with_multiplicative_factor(0.25, 0.125, 0.5)`
computes the slope `a = -1/(0.5 - 1) = 2` and intercept `b = 1 - a = -1`,
giving degree `2*2 - 1 = 3.0` at `z = 2`. -/
theorem claim_C3_amended :
    duration_degree_with_multiplicative_factor (some (1/4)) (1/8) (1/2) =
      .ok (2 * max ((1/4 : ℚ) / (1/8)) ((1/8 : ℚ) / (1/4)) + -1) := by
  rw [duration_degree_with_multiplicative_factor]
  norm_num [Option.some_ne_none]

/-- C7, confirmed: `pitch_degree` returns `1.0` when the tolerance is zero,
and otherwise `max(0, 1 - d/tol)` where `d` is half the absolute semitone
difference between the two specified notes; in particular
`pitch_degree('c', 4, 'd', 4, 2.0) = 0.5`. -/
theorem claim_C7 :
    (∀ (n1 n2 : Option String) (o1 o2 : Option ℤ),
        pitch_degree n1 o1 n2 o2 0 = .ok 1) ∧
    (∀ (n1 n2 m1 m2 : String) (i1 i2 : ℕ) (o1 o2 : ℤ) (tol : ℚ),
        tol ≠ 0 →
        convert_note_to_sharp n1 = .ok m1 → convert_note_to_sharp n2 = .ok m2 →
        semitones_from_c m1 = .ok i1 → semitones_from_c m2 = .ok i2 →
        pitch_degree (some n1) (some o1) (some n2) (some o2) tol =
          .ok (max 0 (1 - (|((i2 : ℚ) + 12 * o2) - ((i1 : ℚ) + 12 * o1)| / 2) / tol))) ∧
    pitch_degree (some "c") (some 4) (some "d") (some 4) 2 = .ok (1/2) := by
  refine ⟨?_, ?_, ?_⟩
  · intro n1 n2 o1 o2
    simp [pitch_degree]
  · intro n1 n2 m1 m2 i1 i2 o1 o2 tol htol h1 h2 hs1 hs2
    rw [pitch_degree, if_neg htol]
    rw [note_distance_in_tones]
    simp only [h1, h2, hs1, hs2, pyBind_ok]
    rw [max_comm]
    congr 2
    push_cast
    ring_nf
  · rw [pitch_degree]
    norm_num [note_distance_c4_d4, pyBind_ok]

/-- C7, witness: the theorem applied at the concrete example of the
specification, `pitch_degree('c', 4, 'd', 4, 2.0)`. -/
theorem claim_C7_witness :
    pitch_degree (some "c") (some 4) (some "d") (some 4) 2 =
      .ok (max 0 (1 - (|((2 : ℚ) + 12 * 4) - ((0 : ℚ) + 12 * 4)| / 2) / 2)) :=
  claim_C7.2.1 "c" "d" "c" "d" 0 2 4 4 2 (by norm_num)
    conv_sharp_c conv_sharp_d semi_from_c_c semi_from_c_d

/-- C10, counterexample: with factor `0.5` the duration degree is strictly
increasing, not non-increasing, in the ratio deviation `z`: at `z = 2` it is
`3` and at `z = 4` it is `7`. -/
theorem claim_C10_counterexample :
    duration_degree_with_multiplicative_factor (some 1) 2 (1/2) = .ok 3 ∧
    duration_degree_with_multiplicative_factor (some 1) 4 (1/2) = .ok 7 ∧
    max ((1:ℚ)/2) (2/1) < max ((1:ℚ)/4) (4/1) ∧ (3 : ℚ) < 7 := by
  refine ⟨?_, ?_, by norm_num, by norm_num⟩ <;>
    (rw [duration_degree_with_multiplicative_factor]; norm_num [Option.some_ne_none])

/-- C10, amended: for a nonnegative pitch tolerance `pitch_degree` is
non-increasing in the note distance; for a factor at least `1`,
`duration_degree_with_multiplicative_factor` is non-increasing in the ratio
deviation `z`; and for a nonnegative maximal gap `sequencing_degree` is
non-increasing in the time gap `start2 - end1`. -/
theorem claim_C10_amended :
    (∀ (n1 n2 n1' n2' : Option String) (o1 o2 o1' o2' : Option ℤ)
        (gap dA dB rA rB : ℚ),
        0 ≤ gap →
        note_distance_in_tones n1 o1 n2 o2 = .ok dA →
        note_distance_in_tones n1' o1' n2' o2' = .ok dB →
        dA ≤ dB →
        pitch_degree n1 o1 n2 o2 gap = .ok rA →
        pitch_degree n1' o1' n2' o2' gap = .ok rB →
        rB ≤ rA) ∧
    (∀ (e d e' d' factor rA rB : ℚ),
        1 ≤ factor → 0 < e → 0 < d → 0 < e' → 0 < d' →
        max (e / d) (d / e) ≤ max (e' / d') (d' / e') →
        duration_degree_with_multiplicative_factor (some e) d factor = .ok rA →
        duration_degree_with_multiplicative_factor (some e') d' factor = .ok rB →
        rB ≤ rA) ∧
    (∀ (e1 s2 e1' s2' g : ℚ),
        0 ≤ g → s2 - e1 ≤ s2' - e1' →
        sequencing_degree e1' s2' g ≤ sequencing_degree e1 s2 g) := by
  refine ⟨?_, ?_, ?_⟩
  · intro n1 n2 n1' n2' o1 o2 o1' o2' gap dA dB rA rB hgap hdA hdB hle hA hB
    rcases eq_or_lt_of_le hgap with hz | hpos
    · rw [pitch_degree, if_pos hz.symm] at hA hB
      injection hA with hA
      injection hB with hB
      rw [← hA, ← hB]
    · have hne : gap ≠ 0 := ne_of_gt hpos
      rw [pitch_degree, if_neg hne, hdA, pyBind_ok] at hA
      rw [pitch_degree, if_neg hne, hdB, pyBind_ok] at hB
      injection hA with hA
      injection hB with hB
      rw [← hA, ← hB]
      have : dA / gap ≤ dB / gap :=
        div_le_div_of_nonneg_right hle (le_of_lt hpos)
      exact max_le_max (by linarith) le_rfl
  · intro e d e' d' factor rA rB hf he hd he' hd' hz hA hB
    rcases eq_or_lt_of_le hf with h1 | h1
    · rw [duration_degree_with_multiplicative_factor, if_pos (Or.inl h1.symm)] at hA
      rw [duration_degree_with_multiplicative_factor, if_pos (Or.inl h1.symm)] at hB
      injection hA with hA
      injection hB with hB
      rw [← hA, ← hB]
    · have hne : factor ≠ 1 := by intro h; rw [h] at h1; exact lt_irrefl 1 h1
      rw [duration_degree_with_multiplicative_factor, if_neg (by simp [hne]),
        if_neg (by push_neg; exact ⟨ne_of_gt hd, ne_of_gt he⟩)] at hA
      rw [duration_degree_with_multiplicative_factor, if_neg (by simp [hne]),
        if_neg (by push_neg; exact ⟨ne_of_gt hd', ne_of_gt he'⟩)] at hB
      injection hA with hA
      injection hB with hB
      rw [← hA, ← hB]
      have hA1 : 0 < factor - 1 := by linarith
      have ha : -1 / (factor - 1) < 0 := by
        apply div_neg_of_neg_of_pos (by norm_num) hA1
      have := mul_le_mul_of_nonpos_left hz (le_of_lt ha)
      linarith
  · intro e1 s2 e1' s2' g hg hle
    rw [sequencing_degree, sequencing_degree]
    split
    · exact le_refl 1
    · have hgpos : 0 < g := lt_of_le_of_ne hg (by intro h; exact (by assumption : ¬ g = 0) h.symm)
      have : (s2 - e1) / g ≤ (s2' - e1') / g := div_le_div_of_nonneg_right hle (le_of_lt hgpos)
      exact max_le_max (by linarith) le_rfl

/-- C10, witness: the amended monotonicity applied at concrete inputs: a
wider time gap gives a sequencing degree that is not larger. -/
theorem claim_C10_amended_witness :
    (0 : ℚ) ≤ 1/2 ∧ (9/8 : ℚ) - 1 ≤ 5/4 - 1 ∧
    sequencing_degree 1 (5/4) (1/2) ≤ sequencing_degree 1 (9/8) (1/2) :=
  ⟨by norm_num, by norm_num,
   claim_C10_amended.2.2 1 (9/8) 1 (5/4) (1/2) (by norm_num) (by norm_num)⟩

/-- `representation/pitch.py` `Pitch`: a pitch class, octave and accidental,
each possibly absent. -/
structure PitchV where
  class_ : Option String
  octave : Option ℤ
  accid : Option String
deriving DecidableEq, Repr

/-- `Duration.dur_int`: the canonical power-of-two duration values (as
numbers, since Python compares them numerically). -/
def Duration.dur_int : List ℚ := [1, 2, 4, 8, 16, 32]

/-- `Duration.dur_float`: the fractional whole-note values `1/k`. -/
def Duration.dur_float : List ℚ := Duration.dur_int.map (fun k => 1 / k)

/-- `Duration.dur_float_dotted`: the single-dotted values `k + k/2`. -/
def Duration.dur_float_dotted : List ℚ := Duration.dur_float.map (fun k => k + k / 2)

/-- `Duration.from_float`: converts a fractional value to the canonical
power-of-two value, first undoing a single-dotted value, raising
`ValueError` outside the allowed set. -/
def Duration.from_float (q : ℚ) : Except PyErr ℚ :=
  let q' := match pyIndex Duration.dur_float_dotted q with
    | .ok i => Duration.dur_float.getD i 0
    | .error _ => q
  match pyIndex Duration.dur_float q' with
  | .ok i => .ok (Duration.dur_int.getD i 0)
  | .error _ => .error .valueError

/-- `Duration.__init__` on a Python float: values equal to a canonical
integer are kept, other values go through `from_float`. -/
def Duration.ofFloat (q : ℚ) : Except PyErr ℚ :=
  if q ∈ Duration.dur_int then .ok q else Duration.from_float q

/-- `Duration.__init__` on a possibly-`None` value. -/
def Duration.ofOpt (q : Option ℚ) : Except PyErr (Option ℚ) :=
  match q with
  | none => .ok none
  | some q => (Duration.ofFloat q).map some

/-- `Duration.to_float`: the fractional value of a stored canonical value;
`list.index` raises `ValueError` when the stored value is `None` or not in
the table. -/
def Duration.to_float (dur : Option ℚ) : Except PyErr ℚ :=
  match dur with
  | none => .error .valueError
  | some d => do
    let i ← pyIndex Duration.dur_int d
    .ok (Duration.dur_float.getD i 0)

/-- `representation/chord.py` `Chord`: pitches, duration, dots and optional
timing and identifier. -/
structure ChordV where
  pitches : List PitchV
  dur : Option ℚ
  dots : Option ℤ
  start : Option ℚ
  end_ : Option ℚ
  id : Option String
deriving DecidableEq, Repr

/-- `Chord.__init__`: rejects a negative dot count with `ValueError`. -/
def mkChord (p : List PitchV) (dur : Option ℚ) (dots : Option ℤ)
    (start end_ : Option ℚ) (id : Option String) : Except PyErr ChordV :=
  match dots with
  | some k => if k < 0 then .error .valueError else .ok ⟨p, dur, dots, start, end_, id⟩
  | none => .ok ⟨p, dur, dots, start, end_, id⟩

/-- The dots loop of `Chord.get_duration_dots_float`: for `k in range(n)` it
adds `base / (k + 1)`, a harmonic series. -/
def harmonicDots (base : ℚ) : ℕ → ℚ
  | 0 => 0
  | n + 1 => harmonicDots base n + base / (n + 1)

/-- `Chord.get_duration_dots_float`: the fractional duration with dots, each
dot `k` contributing `base / (k + 1)`. -/
def Chord.get_duration_dots_float (c : ChordV) : Except PyErr ℚ := do
  let base ← Duration.to_float c.dur
  match c.dots with
  | none => .ok base
  | some n => .ok (base + harmonicDots base n.toNat)

/-- The dots loop of `make_duration_condition` (`reformulation_V3.py`,
lines 47-53): the `i`-th dot adds `(1/dur) / 2^i`, a geometric series. -/
def geoDots (durInv : ℚ) : ℕ → ℚ
  | 0 => 0
  | n + 1 => geoDots durInv n + durInv / 2 ^ (n + 1)

/-- The `duration` value that `make_duration_condition` embeds in the
compiled condition (`reformulation_V3.py`, lines 44-53): `1/dur` plus the
geometric dots series. -/
def make_duration_value (dur : ℚ) (dots : Option ℤ) : ℚ :=
  1 / dur + match dots with
    | none => 0
    | some n => geoDots (1 / dur) n.toNat

/-- `fuzzy_computation.find_duration_range_multiplicative_factor_sym`:
the symmetric duration range for a factor and alpha cut; alpha outside
`[0,1]` raises `ValueError`, a zero (possibly normalized) factor raises
`ZeroDivisionError`. -/
def find_duration_range_multiplicative_factor_sym (duration factor alpha : ℚ) :
    Except PyErr (ℚ × ℚ) :=
  if ¬ (0 ≤ alpha ∧ alpha ≤ 1) then .error .valueError
  else do
    let factor ← if factor < 1 then
        (if factor = 0 then .error .zeroDivisionError else .ok (1 / factor))
      else .ok factor
    if factor = 1 then .ok (duration, duration)
    else do
      let factor := (factor - 1) * (1 - alpha) + 1
      let inv ← if factor = 0 then .error .zeroDivisionError else .ok (1 / factor)
      let low_distance := duration - duration * inv
      let high_distance := duration * factor - duration
      .ok (duration - low_distance * (1 - alpha), duration + high_distance * (1 - alpha))

/-- The geometric dots series sums to the claimed closed form. -/
theorem geoDots_closed (d : ℚ) (hd : d ≠ 0) (n : ℕ) :
    1 / d + geoDots (1 / d) n = 1 / d * (2 - (1 / 2) ^ n) := by
  induction n with
  | zero => norm_num [geoDots]
  | succ n ih =>
    rw [geoDots, ← add_assoc, ih]
    field_simp
    ring

/-- C4, code bug: the clause builder (`make_duration_condition`) converts a
power-of-two duration `d` with `n` dots to `(1/d) * (2 - 2^(-n))` as the
claim states (in particular `3/8` for a dotted quarter), but
`Chord.get_duration_dots_float` adds `base/(k+1)` per dot — a harmonic
series — and returns `1/2` for a dotted quarter, contradicting the claim,
the spec, `Duration.dur_float_dotted` and the clause builder. -/
theorem claim_C4 :
    (∀ (d : ℚ) (n : ℕ), d ≠ 0 →
        make_duration_value d (some (n : ℤ)) = 1 / d * (2 - (1 / 2) ^ n)) ∧
    make_duration_value 4 (some 1) = 3 / 8 ∧
    Chord.get_duration_dots_float ⟨[], some 4, some 1, none, none, none⟩ = .ok (1 / 2) ∧
    (1 / 2 : ℚ) ≠ 3 / 8 := by
  refine ⟨?_, ?_, ?_, by norm_num⟩
  · intro d n hd
    rw [make_duration_value]
    simpa using geoDots_closed d hd n
  · rw [make_duration_value]
    norm_num [geoDots]
  · rw [Chord.get_duration_dots_float]
    norm_num [Duration.to_float, Duration.dur_int, Duration.dur_float, pyIndex,
      harmonicDots, pyBind_ok]

/-- C4, witness: the closed form applied at the dotted quarter. -/
theorem claim_C4_witness :
    (4 : ℚ) ≠ 0 ∧ make_duration_value 4 (some ((1 : ℕ) : ℤ)) = 1 / 4 * (2 - (1 / 2) ^ 1) :=
  ⟨by norm_num, claim_C4.1 4 1 (by norm_num)⟩

/-- Matches a literal at the head of the text, returning the remainder. -/
def dropLit : List Char → List Char → Option (List Char)
  | [], cs => some cs
  | _ :: _, [] => none
  | l :: ls, c :: cs => if c = l then dropLit ls cs else none

/-- Whether the text starts with an ASCII digit. -/
def headDigit : List Char → Bool
  | [] => false
  | c :: _ => c.isDigit

/-- Splits a maximal run of digits off the head of the text. -/
def takeDigits : List Char → List Char × List Char
  | [] => ([], [])
  | c :: cs =>
    if c.isDigit then
      let (ds, r) := takeDigits cs
      (c :: ds, r)
    else ([], c :: cs)

/-- The numeric value of a digit run. -/
def digitsVal (ds : List Char) : ℕ :=
  ds.foldl (fun acc c => 10 * acc + (c.toNat - '0'.toNat)) 0

/-- The regular-expression group `(\d+\.\d+|\d+)` of the tolerance
directives: a decimal number if a dot with digits follows the first digit
run, else the integer alternative; `None` when no digit is present. -/
def numGroup (cs : List Char) : Option ℚ :=
  let (ds1, r1) := takeDigits cs
  if ds1 = [] then none
  else
    match r1 with
    | '.' :: r2 =>
      let (ds2, _) := takeDigits r2
      if ds2 = [] then some (digitsVal ds1)
      else some ((digitsVal ds1 : ℚ) + (digitsVal ds2 : ℚ) / 10 ^ ds2.length)
    | _ => some (digitsVal ds1)

/-- The regular-expression group `(\d+\.\d+)` of the `ALPHA` directive:
only a decimal number with digits on both sides of the dot matches. -/
def numGroupFloat (cs : List Char) : Option ℚ :=
  let (ds1, r1) := takeDigits cs
  if ds1 = [] then none
  else
    match r1 with
    | '.' :: r2 =>
      let (ds2, _) := takeDigits r2
      if ds2 = [] then none
      else some ((digitsVal ds1 : ℚ) + (digitsVal ds2 : ℚ) / 10 ^ ds2.length)
    | _ => none

/-- Python `re.search`: tries the pattern (a literal followed by a numeric
group) at every position, returning the first captured value. -/
def searchPat (lit : List Char) (num : List Char → Option ℚ) :
    List Char → Option ℚ
  | [] => (dropLit lit []).bind num
  | c :: cs =>
    match (dropLit lit (c :: cs)).bind num with
    | some v => some v
    | none => searchPat lit num cs

/-- `extract_notes_from_query.extract_fuzzy_parameters`, numeric core
(lines 82-94): the four tolerance/alpha parameters with their defaults, and
the `ALLOW_TRANSPOSITION`/`CONTOUR` flags.  The collection filter and fixed
notes (lines 97-111) use separate regular expressions and independent
outputs and are not modelled here. -/
def extract_fuzzy_parameters_numeric (q : List Char) : ℚ × ℚ × ℚ × ℚ × Bool × Bool :=
  let pitch_distance := (searchPat "TOLERANT pitch=".data numGroup q).getD 0
  let duration_factor := (searchPat "duration=".data numGroup q).getD 1
  let duration_gap := (searchPat "gap=".data numGroup q).getD 0
  let alpha := (searchPat "ALPHA ".data numGroupFloat q).getD 0
  let allow_transposition := (searchPat "ALLOW_TRANSPOSITION".data (fun _ => some 1) q).isSome
  let contour := (searchPat "CONTOUR".data (fun _ => some 1) q).isSome
  (pitch_distance, duration_factor, duration_gap, alpha, allow_transposition, contour)

/-- A search over text on which the pattern matches at no position returns
`None`. -/
theorem searchPat_none (lit : List Char) (num : List Char → Option ℚ) :
    ∀ q : List Char, (∀ s ∈ q.tails, (dropLit lit s).bind num = none) →
      searchPat lit num q = none
  | [], H => by
    rw [searchPat]
    exact H [] (by simp)
  | c :: cs, H => by
    rw [searchPat, H (c :: cs) (by simp)]
    exact searchPat_none lit num cs (fun s hs => H s (by
      rw [List.mem_tails] at hs ⊢
      exact hs.trans (List.suffix_cons c cs)))

/-- The numeric group requires a leading digit. -/
theorem numGroup_none_of_not_digit (cs : List Char) (h : headDigit cs = false) :
    numGroup cs = none := by
  cases cs with
  | nil => rfl
  | cons c cs =>
    rw [headDigit] at h
    rw [numGroup, takeDigits]
    simp [h]

/-- The decimal-only numeric group requires a leading digit. -/
theorem numGroupFloat_none_of_not_digit (cs : List Char) (h : headDigit cs = false) :
    numGroupFloat cs = none := by
  cases cs with
  | nil => rfl
  | cons c cs =>
    rw [headDigit] at h
    rw [numGroupFloat, takeDigits]
    simp [h]

/-- If every occurrence of the literal is followed by a non-digit, the
search for the literal-and-number pattern fails. -/
theorem searchPat_none_of_malformed (lit : List Char) (num : List Char → Option ℚ)
    (hnum : ∀ cs, headDigit cs = false → num cs = none) (q : List Char)
    (H : ∀ s ∈ q.tails, ∀ rest, dropLit lit s = some rest → headDigit rest = false) :
    searchPat lit num q = none :=
  searchPat_none lit num q (fun s hs => by
    cases hd : dropLit lit s with
    | none => rfl
    | some rest => exact hnum rest (H s hs rest hd))

/-- C5, counterexample: on a query whose tolerance directive carries the
malformed literal `x` the extractor raises nothing and silently returns the
neutral defaults (`0.0` pitch distance, `1.0` duration factor, `0.0` gap,
`0.0` alpha); no `ParseError` is produced (none exists in the code). -/
theorem claim_C5_counterexample :
    extract_fuzzy_parameters_numeric "MATCH TOLERANT pitch=x ALPHA y".data =
      (0, 1, 0, 0, false, false) := by
  decide

/-- C5, amended: a malformed numeric literal in a tolerance or alpha
directive does not raise; the directive regular expression simply fails to
match, and the extractor substitutes the neutral default (`0.0` for the
pitch distance and gap, `1.0` for the duration factor, `0.0` for alpha).
The hypotheses say that every occurrence of the directive keyword is
followed by a non-digit, i.e. every such directive is malformed. -/
theorem claim_C5_amended (q : List Char) :
    ((∀ s ∈ q.tails, ∀ rest, dropLit "TOLERANT pitch=".data s = some rest →
        headDigit rest = false) →
      (extract_fuzzy_parameters_numeric q).1 = 0) ∧
    ((∀ s ∈ q.tails, ∀ rest, dropLit "duration=".data s = some rest →
        headDigit rest = false) →
      (extract_fuzzy_parameters_numeric q).2.1 = 1) ∧
    ((∀ s ∈ q.tails, ∀ rest, dropLit "gap=".data s = some rest →
        headDigit rest = false) →
      (extract_fuzzy_parameters_numeric q).2.2.1 = 0) ∧
    ((∀ s ∈ q.tails, ∀ rest, dropLit "ALPHA ".data s = some rest →
        headDigit rest = false) →
      (extract_fuzzy_parameters_numeric q).2.2.2.1 = 0) := by
  refine ⟨fun H => ?_, fun H => ?_, fun H => ?_, fun H => ?_⟩
  · rw [extract_fuzzy_parameters_numeric,
      searchPat_none_of_malformed _ _ numGroup_none_of_not_digit q H]
    rfl
  · rw [extract_fuzzy_parameters_numeric,
      searchPat_none_of_malformed _ _ numGroup_none_of_not_digit q H]
    rfl
  · rw [extract_fuzzy_parameters_numeric,
      searchPat_none_of_malformed _ _ numGroup_none_of_not_digit q H]
    rfl
  · rw [extract_fuzzy_parameters_numeric,
      searchPat_none_of_malformed _ _ numGroupFloat_none_of_not_digit q H]
    rfl

/-- C5, witness: the amended statement applied to a concrete query in which
every tolerance and alpha directive is malformed. -/
theorem claim_C5_amended_witness :
    (extract_fuzzy_parameters_numeric "TOLERANT pitch=x ALPHA y".data).1 = 0 ∧
    (extract_fuzzy_parameters_numeric "TOLERANT pitch=x ALPHA y".data).2.2.2.1 = 0 :=
  ⟨(claim_C5_amended "TOLERANT pitch=x ALPHA y".data).1 (by decide),
   (claim_C5_amended "TOLERANT pitch=x ALPHA y".data).2.2.2 (by decide)⟩

/-- A per-note entry of a match as consumed by `unify_results`
(`process_results_to_dict` output): note identifier, aggregated and
per-kind degrees, and the membership-function degree trace. -/
structure NoteInV where
  id : Option String
  note_deg : ℚ
  pitch_deg : ℚ
  duration_deg : ℚ
  sequencing_deg : ℚ
  memb : List (String × ℚ)
deriving DecidableEq, Repr

/-- A per-note entry of the unified output (`make_match`). -/
structure NoteOutV where
  id : Option String
  note_deg : ℚ
  pitch_deg : ℚ
  duration_deg : ℚ
  sequencing_deg : ℚ
deriving DecidableEq, Repr

/-- A `MatchRecord` as consumed by `unify_results`: source, bounds, overall
degree and note entries. -/
structure MatchRecV where
  source : String
  start : ℚ
  end_ : ℚ
  overall_degree : ℚ
  notes : List NoteInV
deriving DecidableEq, Repr

/-- A match of the unified output. -/
structure MatchOutV where
  overall_degree : ℚ
  notes : List NoteOutV
deriving DecidableEq, Repr

/-- One source group of the unified output (`matchList` models the
`matches` key, which is not a usable field name here). -/
structure UnifiedV where
  source : String
  number_of_occurrences : ℕ
  max_match_degree : ℚ
  matchList : List MatchOutV
deriving DecidableEq, Repr

/-- `unify_results.make_match`: projects a match to its output form. -/
def make_match (m : MatchRecV) : MatchOutV :=
  ⟨m.overall_degree,
   m.notes.map (fun n => ⟨n.id, n.note_deg, n.pitch_deg, n.duration_deg, n.sequencing_deg⟩)⟩

/-- The in-place update of a seen source: bump the count, keep the larger
degree, append the match. -/
def bumpEntry (m : MatchRecV) (e : UnifiedV) : UnifiedV :=
  { e with
    number_of_occurrences := e.number_of_occurrences + 1,
    max_match_degree :=
      if e.max_match_degree < m.overall_degree then m.overall_degree
      else e.max_match_degree,
    matchList := e.matchList ++ [make_match m] }

/-- One iteration of the `unify_results` loop: a new source appends a fresh
entry, a seen source is updated in place (`results_dict` is a Python dict,
hence insertion-ordered; `seen_sources` mirrors its key set). -/
def unify_step (state : List UnifiedV) (m : MatchRecV) : List UnifiedV :=
  if state.any (fun e => e.source = m.source) then
    state.map (fun e => if e.source = m.source then bumpEntry m e else e)
  else state ++ [⟨m.source, 1, m.overall_degree, [make_match m]⟩]

/-- `process_results.unify_results`: groups the match stream by source. -/
def unify_results (ms : List MatchRecV) : List UnifiedV :=
  ms.foldl unify_step []

/-- The maximum kept by the loop: the first degree, then updated on strict
increase; equals the fold of `max` over the list. -/
def maxOfDegrees : List ℚ → ℚ
  | [] => 0
  | d :: ds => ds.foldl max d

/-- The aggregate entry that `unify_results` builds for one source, from
the sub-stream of matches of that source. -/
def unifyAgg (s : String) (ms : List MatchRecV) : UnifiedV :=
  ⟨s, ms.length, maxOfDegrees (ms.map (fun m => m.overall_degree)), ms.map make_match⟩

/-- Filtering a source-preserving in-place update commutes with the update. -/
theorem filter_map_update (g : UnifiedV → UnifiedV)
    (hg : ∀ e, (g e).source = e.source) (t s : String) (state : List UnifiedV) :
    (state.map (fun e => if e.source = t then g e else e)).filter
        (fun e => e.source = s) =
      if s = t then (state.filter (fun e => e.source = s)).map g
      else state.filter (fun e => e.source = s) := by
  induction state with
  | nil => simp
  | cons e state ih =>
    by_cases hst : s = t <;> by_cases he : e.source = t <;>
      by_cases hes : e.source = s <;>
      simp_all [List.filter_cons, hg]

/-- A fold of `max` produces an element of the inputs. -/
theorem foldl_max_mem (a : ℚ) (l : List ℚ) : l.foldl max a ∈ a :: l := by
  induction l generalizing a with
  | nil => simp
  | cons c t ih =>
    rw [List.foldl_cons]
    rcases List.mem_cons.mp (ih (max a c)) with h1 | h1
    · rcases max_choice a c with hm | hm
      · rw [h1, hm]
        exact List.mem_cons_self _ _
      · rw [h1, hm]
        exact List.mem_cons_of_mem _ (List.mem_cons_self _ _)
    · exact List.mem_cons_of_mem _ (List.mem_cons_of_mem _ h1)

/-- A fold of `max` bounds all the inputs. -/
theorem le_foldl_max : ∀ (l : List ℚ) (a : ℚ), ∀ x ∈ a :: l, x ≤ l.foldl max a
  | [], a, x, hx => by
    rw [List.mem_singleton] at hx
    rw [hx, List.foldl_nil]
  | c :: t, a, x, hx => by
    rw [List.foldl_cons]
    rcases List.mem_cons.mp hx with h | h
    · rw [h]
      exact le_trans (le_max_left a c) (le_foldl_max t (max a c) _ (List.mem_cons_self _ _))
    · rcases List.mem_cons.mp h with h1 | h1
      · rw [h1]
        exact le_trans (le_max_right a c) (le_foldl_max t (max a c) _ (List.mem_cons_self _ _))
      · exact le_foldl_max t (max a c) x (List.mem_cons_of_mem _ h1)

/-- The Python update `if old < new: old = new` is the binary maximum. -/
theorem if_lt_max (A b : ℚ) : (if A < b then b else A) = max A b := by
  rcases lt_or_ge A b with h | h
  · rw [if_pos h, max_eq_right (le_of_lt h)]
  · rw [if_neg (not_lt_of_ge h), max_eq_left h]

/-- Appending one degree to a nonempty stream takes the maximum with it. -/
theorem maxOfDegrees_append_single (l : List ℚ) (d : ℚ) (h : l ≠ []) :
    maxOfDegrees (l ++ [d]) = max (maxOfDegrees l) d := by
  rcases List.exists_cons_of_ne_nil h with ⟨c, t, rfl⟩
  simp [maxOfDegrees, List.foldl_append]

/-- Updating the aggregate of a seen source equals aggregating the extended
sub-stream. -/
theorem bump_agg (m : MatchRecV) (s : String) (old : List MatchRecV) (h : old ≠ []) :
    bumpEntry m (unifyAgg s old) = unifyAgg s (old ++ [m]) := by
  have hmax := maxOfDegrees_append_single (old.map (fun x => x.overall_degree))
    m.overall_degree (by simpa using h)
  simp only [bumpEntry, unifyAgg, List.map_append, List.length_append,
    List.map_cons, List.map_nil] at hmax ⊢
  rw [hmax, ← if_lt_max]
  simp

/-- Characterization of `unify_results`: the sub-stream of matches of each
source is aggregated into exactly one entry. -/
theorem unify_results_filter (ms : List MatchRecV) :
    ∀ s : String,
      (unify_results ms).filter (fun e => e.source = s) =
        if (ms.filter (fun m => m.source = s)) = [] then []
        else [unifyAgg s (ms.filter (fun m => m.source = s))] := by
  induction ms using List.reverseRecOn with
  | nil =>
    intro s
    simp [unify_results]
  | append_singleton ms m ih =>
    intro s
    have hstep : unify_results (ms ++ [m]) = unify_step (unify_results ms) m := by
      rw [unify_results, List.foldl_append]
      rfl
    have hfa : (ms ++ [m]).filter (fun x => x.source = s) =
        ms.filter (fun x => x.source = s) ++ ([m].filter (fun x => x.source = s)) :=
      List.filter_append _ _
    rw [hstep, unify_step]
    by_cases hany : (unify_results ms).any (fun e => e.source = m.source)
    · -- the source of `m` was already seen
      have hms : ¬ (ms.filter (fun x => x.source = m.source)) = [] := by
        intro hemp
        have hch := ih m.source
        rw [if_pos hemp] at hch
        rcases List.any_eq_true.mp hany with ⟨e, he, hsrc⟩
        have : e ∈ (unify_results ms).filter (fun e => e.source = m.source) :=
          List.mem_filter.mpr ⟨he, hsrc⟩
        rw [hch] at this
        exact absurd this (List.not_mem_nil e)
      rw [if_pos hany, filter_map_update (bumpEntry m) (fun e => rfl) m.source s]
      by_cases hsm : s = m.source
      · subst hsm
        have hch := ih m.source
        rw [if_neg hms] at hch
        rw [if_pos rfl, hch, hfa]
        have hm1 : [m].filter (fun x => x.source = m.source) = [m] := by simp
        rw [hm1, if_neg (by
          intro hemp
          have hmm : m ∈ ms.filter (fun x => x.source = m.source) ++ [m] := by simp
          rw [hemp] at hmm
          exact absurd hmm (List.not_mem_nil m))]
        rw [List.map_singleton, bump_agg m m.source _ hms]
      · rw [if_neg hsm, hfa]
        have hm0 : [m].filter (fun x => x.source = s) = [] := by
          simp [show ¬ m.source = s from fun h => hsm h.symm]
        rw [hm0, List.append_nil]
        exact ih s
    · -- the source of `m` is new
      rw [if_neg hany]
      have hnone : (unify_results ms).filter (fun e => e.source = m.source) = [] := by
        rw [List.filter_eq_nil_iff]
        intro e he
        simp only [decide_eq_true_eq]
        intro hsrc
        exact hany (List.any_eq_true.mpr ⟨e, he, by simp [hsrc]⟩)
      have hms : (ms.filter (fun x => x.source = m.source)) = [] := by
        by_contra hne
        have hch := ih m.source
        rw [if_neg hne] at hch
        rw [hch] at hnone
        exact absurd hnone (by simp)
      rw [List.filter_append]
      by_cases hsm : s = m.source
      · subst hsm
        have hch := ih m.source
        rw [if_pos hms] at hch
        rw [hch, List.nil_append, hfa, hms, List.nil_append]
        have hm1 : [m].filter (fun x => x.source = m.source) = [m] := by simp
        rw [hm1, if_neg (by simp)]
        have hone : ([(⟨m.source, 1, m.overall_degree, [make_match m]⟩ : UnifiedV)].filter
            (fun e => e.source = m.source)) =
          [⟨m.source, 1, m.overall_degree, [make_match m]⟩] := by simp
        rw [hone]
        rfl
      · have hm0 : [m].filter (fun x => x.source = s) = [] := by
          simp [show ¬ m.source = s from fun h => hsm h.symm]
        have hnew : ([(⟨m.source, 1, m.overall_degree, [make_match m]⟩ : UnifiedV)].filter
            (fun e => e.source = s)) = [] := by
          simp [show ¬ m.source = s from fun h => hsm h.symm]
        rw [hnew, List.append_nil, hfa, hm0, List.append_nil]
        exact ih s

/-- C8, confirmed: `unify_results` groups matches by source: one entry per
distinct source whose occurrence count is the number of that source's
matches, whose `max_match_degree` is the maximum of their overall degrees,
and whose match list keeps first-seen (input) order; unifying two matches
sharing source `"S"` yields one entry with two occurrences and the larger
degree. -/
theorem claim_C8 :
    (∀ (ms : List MatchRecV) (s : String), s ∈ ms.map (fun m => m.source) →
      ∃ e, (unify_results ms).filter (fun u => u.source = s) = [e] ∧
        e.source = s ∧
        e.number_of_occurrences = (ms.filter (fun m => m.source = s)).length ∧
        e.max_match_degree ∈
          (ms.filter (fun m => m.source = s)).map (fun m => m.overall_degree) ∧
        (∀ d ∈ (ms.filter (fun m => m.source = s)).map (fun m => m.overall_degree),
          d ≤ e.max_match_degree) ∧
        e.matchList = (ms.filter (fun m => m.source = s)).map make_match) ∧
    (∀ m1 m2 : MatchRecV, m1.source = "S" → m2.source = "S" →
      unify_results [m1, m2] =
        [⟨"S", 2, max m1.overall_degree m2.overall_degree,
          [make_match m1, make_match m2]⟩]) := by
  constructor
  · intro ms s hs
    have hne : ms.filter (fun m => m.source = s) ≠ [] := by
      rcases List.mem_map.mp hs with ⟨m, hm, hsrc⟩
      intro hemp
      have : m ∈ ms.filter (fun m => m.source = s) :=
        List.mem_filter.mpr ⟨hm, by simp [hsrc]⟩
      rw [hemp] at this
      exact absurd this (List.not_mem_nil m)
    refine ⟨unifyAgg s (ms.filter (fun m => m.source = s)), ?_, rfl, rfl, ?_, ?_, rfl⟩
    · rw [unify_results_filter ms s, if_neg hne]
    · rcases hl : (ms.filter (fun m => m.source = s)).map (fun m => m.overall_degree)
        with _ | ⟨d, ds⟩
      · exact absurd (by simpa using hl) hne
      · show maxOfDegrees _ ∈ _
        rw [hl, maxOfDegrees]
        exact foldl_max_mem d ds
    · intro d hd
      rcases hl : (ms.filter (fun m => m.source = s)).map (fun m => m.overall_degree)
        with _ | ⟨d0, ds⟩
      · exact absurd (by simpa using hl) hne
      · show d ≤ maxOfDegrees _
        rw [hl] at hd
        rw [hl, maxOfDegrees]
        exact le_foldl_max ds d0 d hd
  · intro m1 m2 h1 h2
    have h12 : m1.source = m2.source := by rw [h1, h2]
    simp only [unify_results, List.foldl_cons, List.foldl_nil, unify_step,
      List.any_nil, List.nil_append, Bool.false_eq_true, if_false, List.any_cons,
      h12, decide_eq_true_eq, Bool.or_self, if_true, List.map_cons, List.map_nil,
      if_pos rfl, bumpEntry]
    rw [if_lt_max]
    simp [h1, h2]

/-- C8, witness: unifying two concrete matches with the shared source
`"S"`. -/
theorem claim_C8_witness :
    unify_results [⟨"S", 0, 1, 3/4, []⟩, ⟨"S", 1, 2, 1/2, []⟩] =
      [⟨"S", 2, max ((3:ℚ)/4) (1/2),
        [make_match ⟨"S", 0, 1, 3/4, []⟩, make_match ⟨"S", 1, 2, 1/2, []⟩]⟩] :=
  claim_C8.2 ⟨"S", 0, 1, 3/4, []⟩ ⟨"S", 1, 2, 1/2, []⟩ rfl rfl

/-- Python list indexing `l[i]`, raising `IndexError` out of range. -/
def listGet {α : Type} (l : List α) (i : ℕ) : Except PyErr α :=
  match l.get? i with
  | some x => .ok x
  | none => .error .indexError

/-- The Python per-element loop with exceptions: `exMapM f l` applies `f`
left to right, stopping at the first raised error. -/
def exMapM {α β : Type} (f : α → Except PyErr β) : List α → Except PyErr (List β)
  | [] => .ok []
  | a :: l => do
    let b ← f a
    let bs ← exMapM f l
    .ok (b :: bs)

/-- Inversion of a successful bind. -/
theorem bind_ok_inv {α β : Type} {x : Except PyErr α} {g : α → Except PyErr β}
    {c : β} (h : (x >>= g) = .ok c) : ∃ b, x = .ok b ∧ g b = .ok c := by
  cases x with
  | ok a => exact ⟨a, rfl, h⟩
  | error e => exact absurd h (by simp [pyBind_err])

/-- A successful `exMapM` is pointwise successful, position by position. -/
theorem exMapM_ok_get {α β : Type} (f : α → Except PyErr β) :
    ∀ (l : List α) (ys : List β), exMapM f l = .ok ys →
      ys.length = l.length ∧
      ∀ i (h1 : i < l.length) (h2 : i < ys.length),
        f (l.get ⟨i, h1⟩) = .ok (ys.get ⟨i, h2⟩) := by
  intro l
  induction l with
  | nil =>
    intro ys h
    rw [exMapM] at h
    injection h with h
    subst h
    exact ⟨rfl, fun i h1 _ => absurd h1 (Nat.not_lt_zero i)⟩
  | cons a l ih =>
    intro ys h
    rw [exMapM] at h
    rcases bind_ok_inv h with ⟨b, hb, h2⟩
    rcases bind_ok_inv h2 with ⟨bs, hbs, h3⟩
    injection h3 with h3
    subst h3
    rcases ih bs hbs with ⟨hlen, hget⟩
    refine ⟨by simp [hlen], ?_⟩
    intro i hi1 hi2
    cases i with
    | zero => simpa using hb
    | succ i =>
      simpa using hget i (Nat.lt_of_succ_lt_succ hi1) (Nat.lt_of_succ_lt_succ hi2)

/-- `Pitch.accid_semitones`: the semitone shift of each accidental. -/
def accidSemis (a : String) : Except PyErr ℤ :=
  if a = "s" ∨ a = "#" then .ok 1
  else if a = "b" ∨ a = "f" ∨ a = "-" then .ok (-1)
  else if a = "n" then .ok 0
  else if a = "x" then .ok 2
  else if a = "bb" then .ok (-2)
  else .error .keyError

/-- Python `str.lower`, written over the character list so that it reduces
in the kernel. -/
def strLower (s : String) : String := String.mk (s.data.map Char.toLower)

/-- Whether the first list occurs at the head of the second. -/
def startsWithL {α : Type} [DecidableEq α] : List α → List α → Bool
  | [], _ => true
  | _ :: _, [] => false
  | a :: as, b :: bs => a = b && startsWithL as bs

/-- Whether the first list occurs contiguously inside the second
(Python `in` on strings). -/
def subListOf {α : Type} [DecidableEq α] (sub : List α) : List α → Bool
  | [] => startsWithL sub []
  | b :: bs => startsWithL sub (b :: bs) || subListOf sub bs

/-- `Pitch._check_format`: `'-'` becomes `'b'`, the class must be a
substring of `'rabcdefg'` (Python `in` on strings is substring containment),
the accidental must be in the allowed set, and `'s'`/`'f'` are renamed to
`'#'`/`'b'`. -/
def Pitch.checkFormat (c : Option String) (o : Option ℤ) (a : Option String) :
    Except PyErr PitchV :=
  let a := if a = some "-" then some "b" else a
  let classOk := match c with
    | none => true
    | some cl => subListOf (strLower cl).data "rabcdefg".data
  if classOk = true then
    match a with
    | none => .ok ⟨c, o, none⟩
    | some acc =>
      if strLower acc = "#" ∨ strLower acc = "s" ∨ strLower acc = "b" ∨ strLower acc = "f" ∨
          strLower acc = "n" ∨ strLower acc = "x" ∨ strLower acc = "bb" then
        let acc := if acc = "s" then "#" else if acc = "f" then "b" else acc
        .ok ⟨c, o, some acc⟩
      else .error .valueError
  else .error .valueError

/-- `Pitch.from_class_octave_accid` (the three-argument constructor):
assigns the fields and checks the format. -/
def Pitch.mk3 (c : Option String) (o : Option ℤ) (a : Option String) :
    Except PyErr PitchV :=
  Pitch.checkFormat c o a

/-- `Pitch.from_class_and_octave` (the two-argument constructor): formats
`"{class_accid}/{octave}"` and re-parses it with `from_str`; a `None` class
or octave makes the parse fail (`int('None')` or an invalid class letter),
an empty class raises `IndexError` on `cl[0]`. -/
def Pitch.fromClassOctave (ca : Option String) (o : Option ℤ) : Except PyErr PitchV :=
  match ca, o with
  | some ca, some o =>
    let cl := strLower ca
    match cl.data with
    | [] => .error .indexError
    | c :: rest =>
      Pitch.checkFormat (some (String.mk [c])) (some o)
        (if rest = [] then none else some (String.mk rest))
  | _, _ => .error .valueError

/-- `Pitch.add_semitones`: shifts the pitch, re-spelling to sharps; raises
`ValueError` on an unset class or octave or on a rest. -/
def Pitch.addSemitones (p : PitchV) (semitones : ℤ) : Except PyErr PitchV :=
  match p.class_ with
  | none => .error .valueError
  | some cl =>
    if cl = "r" then .error .valueError
    else match p.octave with
      | none => .error .valueError
      | some o => do
        let shift ← match p.accid with
          | none => .ok semitones
          | some a => do
            let k ← accidSemis a
            .ok (semitones + k)
        let i ← pyIndex notes_semitones cl
        let newSt : ℤ := (i : ℤ) + shift
        let newPitch := notes_semitones.getD (newSt.emod 12).toNat ""
        Pitch.fromClassOctave (some newPitch) (some (o + newSt.fdiv 12))

/-- `Pitch._get_index` on a sharp-normalized pitch (`get_class_accid`
converts to sharp with `add_semitones(0)` and indexes the chromatic
table). -/
def Pitch.getIndex (p : PitchV) : Except PyErr ℤ := do
  let p' ← Pitch.addSemitones p 0
  let s := match p'.accid with
    | some a => (p'.class_.getD "") ++ a
    | none => p'.class_.getD ""
  let i ← pyIndex notes_semitones s
  .ok (i : ℤ)

/-- `Pitch.__sub__`: the signed semitone distance; the octaves are read
before the indices normalize the pitches, and subtracting with a rest or an
unset octave raises `ValueError`. -/
def Pitch.subSemitones (p1 p2 : PitchV) : Except PyErr ℤ :=
  match p1.octave, p2.octave with
  | some o1, some o2 =>
    if p1.class_ = some "r" ∨ p2.class_ = some "r" then .error .valueError
    else do
      let i1 ← Pitch.getIndex p1
      let i2 ← Pitch.getIndex p2
      .ok (12 * (o1 - o2) + i1 - i2)
  | _, _ => .error .valueError

/-- `Pitch.get_semitones_from_A4`: the signed distance to a4. -/
def Pitch.semitonesFromA4 (p : PitchV) : Except PyErr ℤ :=
  Pitch.subSemitones p ⟨some "a", some 4, none⟩

/-- `Pitch.find_frequency_bounds`: the two pitches `max_distance` tones
(scaled by `1 - alpha`, floored to semitones) below and above, reported by
their semitone positions relative to a4 (the source then renders the
frequencies `floor/ceil(440 * 2^(s/12))` of these positions). -/
def Pitch.find_frequency_bounds (p : PitchV) (max_distance alpha : ℚ) :
    Except PyErr (ℤ × ℤ) :=
  match p.class_, p.octave with
  | some _, some _ => do
    let eff : ℤ := ⌊2 * max_distance * (1 - alpha)⌋
    let p1 ← Pitch.addSemitones p (-eff)
    let p2 ← Pitch.addSemitones p eff
    let s1 ← Pitch.semitonesFromA4 p1
    let s2 ← Pitch.semitonesFromA4 p2
    .ok (s1, s2)
  | _, _ => .error .valueError

/-- A node-attribute record of the Parsed Query Graph.  Modelled from the
spec: the producing parser (`src.core.extract_notes_from_query`, absent from
the sources) maps each node name to a dynamic attribute record; per spec
section 3, Event nodes carry duration/dots/start/end/id and their Fact
children, Fact nodes carry class/octave/accidental.  An absent attribute is
`none`. -/
structure NodeAttrs where
  type_ : String
  class_ : Option String
  octave : Option ℤ
  accid : Option String
  accidGes : Option String
  dur : Option ℚ
  dots : Option ℤ
  start : Option ℚ
  end_ : Option ℚ
  id : Option String
  children : List String
deriving DecidableEq, Repr

/-- The Parsed Query Graph: an ordered mapping from node name to its
attributes (Python dicts preserve insertion order). -/
def ParsedQuery : Type := List (String × NodeAttrs)

/-- Python dict lookup `notes_dict[name]`: `KeyError` when absent. -/
def qlookup (q : ParsedQuery) (name : String) : Except PyErr NodeAttrs :=
  match List.find? (fun p => p.1 = name) q with
  | some p => .ok p.2
  | none => .error .keyError

/-- The event nodes of the parsed query, in insertion order. -/
def eventNodes (q : ParsedQuery) : List (String × NodeAttrs) :=
  List.filter (fun p => p.2.type_ = "Event") q

/-- The fact nodes of the parsed query, in insertion order. -/
def factNodes (q : ParsedQuery) : List (String × NodeAttrs) :=
  List.filter (fun p => p.2.type_ = "Fact") q

/-- A per-event pitch entry built by `calculate_intervals_list`: `None` for
a rest, a class/octave pair, or the string `'NA'`. -/
inductive PitchEntry where
  | restE
  | pair (c : String) (o : ℤ)
  | na
deriving DecidableEq, Repr

/-- `note_calculations.calculate_pitch_interval`: the interval in tones. -/
def calculate_pitch_interval (note1 note2 : PitchV) : Except PyErr ℚ := do
  let d ← Pitch.subSemitones note2 note1
  .ok ((d : ℚ) / 2)

/-- The pairwise-interval loop of `calculate_intervals_list`. -/
def intervalsOf : List PitchEntry → Except PyErr (List IntervalVal)
  | [] => .ok []
  | [_] => .ok []
  | a :: b :: rest => do
    let i ← match a, b with
      | .restE, _ | _, .restE => (.ok IntervalVal.undef : Except PyErr IntervalVal)
      | .na, _ | _, .na => .ok IntervalVal.na
      | .pair c1 o1, .pair c2 o2 => do
        let p1 ← Pitch.fromClassOctave (some c1) (some o1)
        let p2 ← Pitch.fromClassOctave (some c2) (some o2)
        let v ← calculate_pitch_interval p1 p2
        .ok (IntervalVal.val v)
    let rest' ← intervalsOf (b :: rest)
    .ok (i :: rest')

/-- `note_calculations.calculate_intervals_list`: per event, the first Fact
child gives a pitch entry; consecutive entries give intervals. -/
def calculate_intervals_list (q : ParsedQuery) : Except PyErr (List IntervalVal) := do
  let pitches ← exMapM (fun (p : String × NodeAttrs) => do
    match p.2.children with
    | [] => .error .indexError
    | factName :: _ => do
      let fattrs ← qlookup q factName
      if fattrs.type_ = "rest" then .ok PitchEntry.restE
      else match fattrs.class_, fattrs.octave with
        | some c, some o => .ok (PitchEntry.pair c o)
        | _, _ => .ok PitchEntry.na) (eventNodes q)
  intervalsOf pitches

/-- The pairwise-ratio loop of `calculate_dur_ratios_list`. -/
def ratiosOf : List ℚ → List (Option ℚ)
  | [] => []
  | [_] => []
  | a :: b :: rest => (if a = 0 then none else some (b / a)) :: ratiosOf (b :: rest)

/-- `note_calculations.calculate_dur_ratios_list`: durations `1/dur` per
event (`TypeError` on a missing `dur`, and any not-`None` dot count —
including `0` — multiplies by `1.5`), then consecutive ratios. -/
def calculate_dur_ratios_list (q : ParsedQuery) : Except PyErr (List (Option ℚ)) := do
  let durations ← exMapM (fun (p : String × NodeAttrs) =>
    match p.2.dur with
    | none => (.error .typeError : Except PyErr (ℚ × Option ℤ))
    | some d => if d = 0 then .error .zeroDivisionError else .ok (1 / d, p.2.dots))
    (eventNodes q)
  let durations := durations.map (fun p => match p.2 with
    | none => p.1
    | some _ => p.1 * (3 / 2))
  .ok (ratiosOf durations)

/-- A condition of the compiled WHERE clause.  The source emits text; each
constructor carries exactly the values interpolated into the corresponding
format string (the `freqBand` payload is the pair of semitone positions
whose frequencies `floor/ceil(440 * 2^(s/12))` the source renders). -/
inductive CypherCond where
  | chordInterval (name n0 : String) (semis : ℤ)
  | octaveEq (name : String) (octave : ℤ)
  | restType (name : String)
  | classEq (name class_ : String) (accid : Option String) (octave : Option ℤ)
  | freqBand (name : String) (lowSemisA4 highSemisA4 : ℤ)
  | htNotExists (i : ℕ)
  | intervalNotExists (i : ℕ)
  | htRange (i : ℕ) (lo hi : ℚ)
  | htEq (i : ℕ) (v : ℚ)
  | intervalRange (i : ℕ) (lo hi : ℚ)
  | intervalEq (i : ℕ) (v : ℚ)
  | ratioExistsRange (i : ℕ) (lo hi : ℚ)
  | ratioExistsEq (i : ℕ) (v : ℚ)
  | ratioRange (i : ℕ) (lo hi : ℚ)
  | ratioEq (i : ℕ) (v : ℚ)
  | durEq (name : String) (duration : ℚ)
  | durRange (name : String) (lo hi : ℚ)
  | seq (name1 name2 : String) (slack : ℚ)
deriving DecidableEq, Repr

/-- `note_calculations.calculate_chord_intervals`: for each Event holding at
least two Facts, one interval-preservation condition per extra chord pitch
relative to the first. -/
def calculate_chord_intervals (q : ParsedQuery) : Except PyErr (List CypherCond) := do
  let blocks ← exMapM (fun (p : String × NodeAttrs) => do
    if p.2.type_ = "Event" then
      if 2 ≤ p.2.children.length then do
        let pitches_and_name ← exMapM (fun pitch_name => do
          let pa ← qlookup q pitch_name
          let accid := match pa.accid with
            | some a => some a
            | none => pa.accidGes
          let c ← match pa.class_ with
            | some c => (.ok c : Except PyErr String)
            | none => .error .keyError
          let o ← match pa.octave with
            | some o => (.ok o : Except PyErr ℤ)
            | none => .error .keyError
          let pv ← Pitch.mk3 (some c) (some o) accid
          .ok (pitch_name, pv)) p.2.children
        match pitches_and_name with
        | [] => .ok []
        | (n0, p0) :: rest =>
          exMapM (fun (pr : String × PitchV) => do
            let d ← Pitch.subSemitones pr.2 p0
            .ok (CypherCond.chordInterval pr.1 n0 d)) rest
      else .ok []
    else .ok []) q
  .ok blocks.flatten

/-- `reformulation_V3.make_pitch_condition`: exact class/accidental/octave
equality (or rest type, or octave only) when the tolerance is zero, else a
frequency band. -/
def make_pitch_condition (pitch_distance : ℚ) (pitch : PitchV) (name : String)
    (alpha : ℚ) : Except PyErr (Option CypherCond) :=
  match pitch.class_ with
  | none =>
    match pitch.octave with
    | none => .ok none
    | some o => .ok (some (.octaveEq name o))
  | some cl =>
    if pitch_distance = 0 ∨ cl = "r" then
      if cl = "r" then .ok (some (.restType name))
      else
        .ok (some (.classEq name cl
          (pitch.accid.map (fun a => if a = "#" then "s" else a)) pitch.octave))
    else do
      let (lo, hi) ← Pitch.find_frequency_bounds pitch pitch_distance alpha
      .ok (some (.freqBand name lo hi))

/-- `reformulation_V3.make_interval_condition`: the transposition interval
constraint between events `idx` and `idx + 1`. -/
def make_interval_condition (interval : IntervalVal) (duration_gap pitch_distance : ℚ)
    (idx : ℕ) (alpha : ℚ) : Option CypherCond :=
  match interval with
  | .na => none
  | .undef => some (if duration_gap > 0 then .htNotExists idx else .intervalNotExists idx)
  | .val v =>
    if duration_gap > 0 then
      if pitch_distance > 0 then
        some (.htRange idx (v - pitch_distance * (1 - alpha)) (v + pitch_distance * (1 - alpha)))
      else some (.htEq idx v)
    else
      if pitch_distance > 0 then
        some (.intervalRange idx (v - pitch_distance * (1 - alpha)) (v + pitch_distance * (1 - alpha)))
      else some (.intervalEq idx v)

/-- `reformulation_V3.make_duration_ratio_condition`: the homothety ratio
constraint between events `idx` and `idx + 1`. -/
def make_duration_ratio_condition (duration_ratio : Option ℚ)
    (duration_gap duration_factor : ℚ) (idx : ℕ) (alpha : ℚ) :
    Except PyErr (Option CypherCond) :=
  match duration_ratio with
  | none => .ok none
  | some r => do
    let factor ← if duration_factor < 1 then
        (if duration_factor = 0 then (.error .zeroDivisionError : Except PyErr ℚ)
         else .ok (1 / duration_factor))
      else .ok duration_factor
    let (lo, hi) ← find_duration_range_multiplicative_factor_sym r factor alpha
    if duration_gap > 0 then
      if factor > 1 then .ok (some (.ratioExistsRange idx lo hi))
      else .ok (some (.ratioExistsEq idx r))
    else
      if factor > 1 then .ok (some (.ratioRange idx lo hi))
      else .ok (some (.ratioEq idx r))

/-- `reformulation_V3.make_duration_condition`: the duration equality or
range for one event, embedding the dotted duration value. -/
def make_duration_condition (duration_factor : ℚ) (dur : Option ℚ)
    (node_name : String) (alpha : ℚ) (dots : Option ℤ) :
    Except PyErr (Option CypherCond) :=
  match dur with
  | none => .ok none
  | some d =>
    if d = 0 then .error .zeroDivisionError
    else
      let duration := make_duration_value d dots
      if duration_factor ≠ 1 then do
        let (lo, hi) ← find_duration_range_multiplicative_factor_sym duration duration_factor alpha
        .ok (some (.durRange node_name lo hi))
      else .ok (some (.durEq node_name duration))

/-- `reformulation_V3.make_sequencing_condition`:
`e_{idx}.end >= e_{idx+1}.start - duration_gap * (1 - alpha)`. -/
def make_sequencing_condition (duration_gap : ℚ) (name_1 name_2 : String)
    (alpha : ℚ) : CypherCond :=
  .seq name_1 name_2 (duration_gap * (1 - alpha))

/-- Step 3 of `create_where_clause`: the transposition intervals, computed
only when transposition is allowed. -/
def transIntervals (q : ParsedQuery) (allow_transposition : Bool) :
    Except PyErr (List IntervalVal) :=
  if allow_transposition then calculate_intervals_list q else .ok []

/-- Step 3 of `create_where_clause`: the homothety ratios, computed only
when homothety is allowed. -/
def homRatios (q : ParsedQuery) (allow_homothety : Bool) :
    Except PyErr (List (Option ℚ)) :=
  if allow_homothety then calculate_dur_ratios_list q else .ok []

/-- Step 3 of `create_where_clause`: the chord conditions, computed when the
pitch tolerance is positive or transposition is allowed. -/
def chordPre (q : ParsedQuery) (pitch_distance : ℚ) (allow_transposition : Bool) :
    Except PyErr (List CypherCond) :=
  if pitch_distance > 0 ∨ allow_transposition then calculate_chord_intervals q
  else .ok []

/-- The pitch condition of one Fact node in the loop of
`create_where_clause` (skipped under transposition). -/
def factPitchCond (allow_transposition : Bool) (pitch_distance alpha : ℚ)
    (p : String × NodeAttrs) : Except PyErr (Option CypherCond) :=
  if allow_transposition then .ok none
  else do
    let pv ← Pitch.fromClassOctave p.2.class_ p.2.octave
    make_pitch_condition pitch_distance pv p.1 alpha

/-- The interval conditions of one Event position. -/
def eventIntervalPart (intervals : List IntervalVal) (allow_transposition : Bool)
    (idx n : ℕ) (duration_gap pitch_distance alpha : ℚ) :
    Except PyErr (List CypherCond) :=
  if allow_transposition ∧ idx < n - 1 then do
    let iv ← listGet intervals idx
    .ok (make_interval_condition iv duration_gap pitch_distance idx alpha).toList
  else .ok []

/-- The rhythm conditions of one Event position: the homothety ratio
condition, or else the absolute duration condition. -/
def eventRhythmPart (dur_ratios : List (Option ℚ)) (allow_homothety : Bool)
    (idx n : ℕ) (duration_gap duration_factor alpha : ℚ)
    (name : String) (attrs : NodeAttrs) : Except PyErr (List CypherCond) :=
  if allow_homothety then
    if idx < n - 1 then do
      let r ← listGet dur_ratios idx
      let c ← make_duration_ratio_condition r duration_gap duration_factor idx alpha
      .ok c.toList
    else .ok []
  else do
    let c ← make_duration_condition duration_factor attrs.dur name alpha attrs.dots
    .ok c.toList

/-- The sequencing conditions of one Event position. -/
def eventSeqPart (idx n : ℕ) (duration_gap alpha : ℚ) : List CypherCond :=
  if duration_gap > 0 ∧ idx < n - 1 then
    [make_sequencing_condition duration_gap
      (String.append "e" (toString idx)) (String.append "e" (toString (idx + 1))) alpha]
  else []

/-- The full block of conditions of one Event position. -/
def eventBlock (intervals : List IntervalVal) (dur_ratios : List (Option ℚ))
    (allow_transposition allow_homothety : Bool) (n : ℕ)
    (pitch_distance duration_factor duration_gap alpha : ℚ)
    (ip : ℕ × (String × NodeAttrs)) : Except PyErr (List CypherCond) := do
  let intervalPart ← eventIntervalPart intervals allow_transposition ip.1 n
    duration_gap pitch_distance alpha
  let rhythmPart ← eventRhythmPart dur_ratios allow_homothety ip.1 n
    duration_gap duration_factor alpha ip.2.1 ip.2.2
  .ok (intervalPart ++ rhythmPart ++ eventSeqPart ip.1 n duration_gap alpha)

/-- The per-position condition loop of `create_where_clause`
(`reformulation_V3.py`, lines 386-445): chord conditions, per-Fact pitch
conditions, then per-Event interval/rhythm/sequencing conditions.  The
pre-existing WHERE text filtering (steps 1-2) and the membership-function
support bounds (step 4) consume the missing parser's output and are
appended around this list without touching it. -/
def whereClausesStep3 (q : ParsedQuery) (allow_transposition allow_homothety : Bool)
    (pitch_distance duration_factor duration_gap alpha : ℚ) :
    Except PyErr (List CypherCond) := do
  let intervals ← transIntervals q allow_transposition
  let dur_ratios ← homRatios q allow_homothety
  let chords ← chordPre q pitch_distance allow_transposition
  let pitchConds ← exMapM (factPitchCond allow_transposition pitch_distance alpha)
    (factNodes q)
  let eventBlocks ← exMapM (eventBlock intervals dur_ratios allow_transposition
    allow_homothety (eventNodes q).length pitch_distance duration_factor
    duration_gap alpha) (eventNodes q).enum
  .ok (chords ++ pitchConds.reduceOption ++ eventBlocks.flatten)

/-- C9, confirmed: when `duration_gap > 0`, the per-position condition list
of the compiled WHERE clause contains, for every consecutive pair of events
`i`, `i+1`, the sequencing condition
`e_i.end >= e_{i+1}.start - duration_gap * (1 - alpha)`: the allowed slack
is exactly `duration_gap * (1 - alpha)`. -/
theorem claim_C9 (q : ParsedQuery) (tr hom : Bool) (pd df dg alpha : ℚ)
    (conds : List CypherCond) (hgap : 0 < dg)
    (hok : whereClausesStep3 q tr hom pd df dg alpha = .ok conds) :
    ∀ i, i + 1 < (eventNodes q).length →
      CypherCond.seq (String.append "e" (toString i))
        (String.append "e" (toString (i + 1))) (dg * (1 - alpha)) ∈ conds := by
  intro i hi
  rw [whereClausesStep3] at hok
  rcases bind_ok_inv hok with ⟨intervals, _, hok⟩
  rcases bind_ok_inv hok with ⟨dur_ratios, _, hok⟩
  rcases bind_ok_inv hok with ⟨chords, _, hok⟩
  rcases bind_ok_inv hok with ⟨pitchConds, _, hok⟩
  rcases bind_ok_inv hok with ⟨eventBlocks, hblocks, hok⟩
  injection hok with hok
  subst hok
  have hlen : (eventNodes q).enum.length = (eventNodes q).length := by
    simp
  rcases exMapM_ok_get _ _ _ hblocks with ⟨hblen, hbget⟩
  have hi1 : i < (eventNodes q).enum.length := by omega
  have hi2 : i < eventBlocks.length := by omega
  have hstep := hbget i hi1 hi2
  have henum : (eventNodes q).enum.get ⟨i, hi1⟩ =
      (i, (eventNodes q).get ⟨i, by omega⟩) := by
    simp
  rw [henum, eventBlock] at hstep
  rcases bind_ok_inv hstep with ⟨intervalPart, _, hstep⟩
  rcases bind_ok_inv hstep with ⟨rhythmPart, _, hstep⟩
  injection hstep with hstep
  have hseq : CypherCond.seq (String.append "e" (toString i))
      (String.append "e" (toString (i + 1))) (dg * (1 - alpha)) ∈
      eventBlocks.get ⟨i, hi2⟩ := by
    rw [← hstep]
    refine List.mem_append.mpr (Or.inr ?_)
    rw [eventSeqPart, if_pos ⟨hgap, by omega⟩, make_sequencing_condition]
    exact List.mem_singleton.mpr rfl
  refine List.mem_append.mpr (Or.inr ?_)
  exact List.mem_flatten.mpr ⟨eventBlocks.get ⟨i, hi2⟩,
    eventBlocks.get_mem _ _, hseq⟩

/-- A concrete two-event query for the C9 witness. -/
def c9q : ParsedQuery := [
  ("e0", ⟨"Event", none, none, none, none, some 4, none, none, none, none, ["f0"]⟩),
  ("e1", ⟨"Event", none, none, none, none, some 4, none, none, none, none, ["f1"]⟩),
  ("f0", ⟨"Fact", some "c", some 4, none, none, none, none, none, none, none, []⟩),
  ("f1", ⟨"Fact", some "d", some 4, none, none, none, none, none, none, none, []⟩)]

/-- Evaluation helper: parsing c4. -/
theorem fco_c4 : Pitch.fromClassOctave (some "c") (some 4) =
    .ok ⟨some "c", some 4, none⟩ := by decide

/-- Evaluation helper: parsing d4. -/
theorem fco_d4 : Pitch.fromClassOctave (some "d") (some 4) =
    .ok ⟨some "d", some 4, none⟩ := by decide

/-- The compiled conditions of the concrete query `c9q` with
`duration_gap = 1` and `alpha = 0`. -/
theorem c9q_eval : whereClausesStep3 c9q false false 0 1 1 0 = .ok
    [CypherCond.classEq "f0" "c" none (some 4),
     CypherCond.classEq "f1" "d" none (some 4),
     CypherCond.durEq "e0" (1/4),
     CypherCond.seq "e0" "e1" 1,
     CypherCond.durEq "e1" (1/4)] := by
  rw [whereClausesStep3]
  simp +decide [transIntervals, homRatios, chordPre, exMapM, factNodes, eventNodes, c9q,
    factPitchCond, fco_c4, fco_d4, make_pitch_condition, eventBlock, eventIntervalPart,
    eventRhythmPart, eventSeqPart, make_duration_condition, make_duration_value,
    make_sequencing_condition, listGet, pyBind_ok, List.enum, List.enumFrom,
    List.reduceOption, List.filter, geoDots]

/-- C9, witness: the sequencing condition between the two events of the
concrete query, with slack `1 * (1 - 0)`. -/
theorem claim_C9_witness :
    CypherCond.seq (String.append "e" (toString 0))
      (String.append "e" (toString (0 + 1))) ((1 : ℚ) * (1 - 0)) ∈
      [CypherCond.classEq "f0" "c" none (some 4),
       CypherCond.classEq "f1" "d" none (some 4),
       CypherCond.durEq "e0" (1/4),
       CypherCond.seq "e0" "e1" 1,
       CypherCond.durEq "e1" (1/4)] :=
  claim_C9 c9q false false 0 1 1 0 _ (by norm_num) c9q_eval 0 (by decide)

/-- The fuzzy parameters of a query.  Modelled from the spec: the six-value
extractor of `src.core.extract_notes_from_query` (absent from the sources)
provides `pitch_distance`, `duration_factor`, `duration_gap` (called
`sequencing_gap` in the ranking code), `alpha` and the two mode flags. -/
structure FuzzyParams where
  pitch_gap : ℚ
  duration_factor : ℚ
  sequencing_gap : ℚ
  alpha : ℚ
  allow_transpose : Bool
  allow_homothety : Bool
deriving DecidableEq, Repr

/-- One attribute bound to a membership function.  Modelled from the spec:
the extractor (absent from the sources) yields `(node, attribute, function)`
triples, and the membership-function compiler yields a total evaluator. -/
structure MFAttr where
  node_name : String
  attr_name : String
  mf_name : String
  mf : ℚ → ℚ

/-- A raw result row, following the `<field>_<index>` projection naming
convention: each named family gives the column of that index, and `mfVal k`
is the value of the `k`-th membership-bound attribute alias. -/
structure RawRow where
  duration : ℕ → Option ℚ
  dots : ℕ → Option ℤ
  startN : ℕ → Option ℚ
  endN : ℕ → Option ℚ
  idN : ℕ → Option String
  interval : ℕ → Option ℚ
  dur_rat : ℕ → Option ℚ
  pitch : ℕ → Option String
  octave : ℕ → Option ℤ
  accid : ℕ → Option String
  accidGes : ℕ → Option String
  source : String
  start : ℚ
  end_ : ℚ
  mfVal : ℕ → ℚ

/-- The reconstructed entry of one position: the chord with its optional
interval and duration-ratio side values. -/
def SeqEntry : Type := ChordV × Option ℚ × Option ℚ

/-- The Fact loop of the reconstruction: one pitch per Fact child, with a
running fact counter; the accidental falls back from `accid` to
`accid_ges`. -/
def reconPitches (r : RawRow) : ℕ → List String → Except PyErr (List PitchV)
  | _, [] => .ok []
  | fact_nb, _ :: rest => do
    let accid := match r.accid fact_nb with
      | some a => some a
      | none => r.accidGes fact_nb
    let p ← Pitch.mk3 (r.pitch fact_nb) (r.octave fact_nb) accid
    let ps ← reconPitches r (fact_nb + 1) rest
    .ok (p :: ps)

/-- The Event loop of the reconstruction (`get_ordered_results_2`, filling
`note_sequences`): per event, the side interval/ratio values (only in the
respective modes, and not at the first event), the Fact pitches, the
duration object and the chord. -/
def reconSeq (q : ParsedQuery) (P : FuzzyParams) (r : RawRow) :
    ℕ → ℕ → List (String × NodeAttrs) → Except PyErr (List SeqEntry)
  | _, _, [] => .ok []
  | event_nb, fact_nb, p :: rest => do
    let interval := if P.allow_transpose ∧ event_nb > 0 then r.interval (event_nb - 1)
      else none
    let dratio := if P.allow_homothety ∧ event_nb > 0 then r.dur_rat (event_nb - 1)
      else none
    let pitches ← reconPitches r fact_nb p.2.children
    let dur ← Duration.ofOpt (r.duration event_nb)
    let note ← mkChord pitches dur (r.dots event_nb) (r.startN event_nb)
      (r.endN event_nb) (r.idN event_nb)
    let rest' ← reconSeq q P r (event_nb + 1) (fact_nb + p.2.children.length) rest
    .ok ((note, interval, dratio) :: rest')

/-- Reconstruction of one row into its note sequence. -/
def reconstructRow (q : ParsedQuery) (P : FuzzyParams) (r : RawRow) :
    Except PyErr (List SeqEntry) :=
  reconSeq q P r 0 0 (eventNodes q)

/-- `duration_degree_with_multiplicative_factor` called on `Duration`
objects (as `get_ordered_results_2` does): a `Duration` object is not
`None`, so only `factor == 1` returns early; otherwise the division
`expected_duration / duration` of two `Duration` objects raises `TypeError`
(`Duration` defines no division). -/
def ddwmf_onDurObjs (factor : ℚ) : Except PyErr ℚ :=
  if factor = 1 then .ok 1 else .error .typeError

/-- `sequencing_degree` as called on row timing values that may be absent:
the zero-gap early return happens first, then `start2 - end1` raises
`TypeError` if either is `None`. -/
def seqDegOpt (end1 start2 : Option ℚ) (gap : ℚ) : Except PyErr ℚ :=
  if gap = 0 then .ok 1
  else match end1, start2 with
    | some a, some b => .ok (max (1 - (b - a) / gap) 0)
    | _, _ => .error .typeError

/-- The pitch/interval branch of the scoring loop: under transposition the
interval degree (appended to the interval degrees of slot `idx - 1`);
otherwise, when the query position has both a pitch class and an octave,
the two `Pitch` objects are built and the five-parameter `pitch_degree` is
called with three arguments, which raises `TypeError`.  Returns the note
degrees, the interval-degree contribution and the pitch degree for
rendering. -/
def pitchBranch (P : FuzzyParams) (intervals : List IntervalVal)
    (entry : SeqEntry) (idx : ℕ) (query_note : NodeAttrs) :
    Except PyErr (List ℚ × List ℚ × ℚ) :=
  if P.pitch_gap > 0 then
    if P.allow_transpose then
      if idx > 0 then do
        let iv ← listGet intervals (idx - 1)
        let pd ← pitch_degree_with_intervals iv entry.2.1 P.pitch_gap
        .ok ([], [pd], pd)
      else .ok ([], [], 1)
    else
      if query_note.class_ ≠ none ∧ query_note.octave ≠ none then do
        let _nq ← Pitch.fromClassOctave query_note.class_ query_note.octave
        let p0 ← listGet entry.1.pitches 0
        let _nr ← Pitch.fromClassOctave p0.class_ p0.octave
        (.error .typeError : Except PyErr (List ℚ × List ℚ × ℚ))
      else .ok ([], [], 1)
  else .ok ([], [], 1)

/-- The duration branch of the scoring loop: active when the factor is not
`1` and the query position carries a duration; the expected duration is
`1/dur`, times `1.5` on a truthy dot count; both the homothety path and the
absolute path wrap their operands in `Duration` objects and call
`duration_degree_with_multiplicative_factor` on them. -/
def durationBranch (P : FuzzyParams) (dur_ratios : List (Option ℚ))
    (entry : SeqEntry) (idx : ℕ) (query_note : NodeAttrs) :
    Except PyErr (List ℚ × ℚ) :=
  if P.duration_factor ≠ 1 then
    match query_note.dur with
    | some qd => do
      let e1 ← if qd = 0 then (.error .zeroDivisionError : Except PyErr ℚ)
        else .ok (1 / qd)
      let expected := match query_note.dots with
        | some k => if k ≠ 0 then e1 * (3 / 2) else e1
        | none => e1
      if P.allow_homothety then
        if idx > 0 then do
          let r1 ← listGet dur_ratios (idx - 1)
          let _d1 ← Duration.ofOpt r1
          let _d2 ← Duration.ofOpt entry.2.2
          let dd ← ddwmf_onDurObjs P.duration_factor
          .ok ([dd], dd)
        else .ok ([], 1)
      else do
        let _ed ← Duration.ofFloat expected
        let dd ← ddwmf_onDurObjs P.duration_factor
        .ok ([dd], dd)
    | none => .ok ([], 1)
  else .ok ([], 1)

/-- The sequencing branch of the scoring loop. -/
def seqBranch (P : FuzzyParams) (seqList : List SeqEntry) (entry : SeqEntry)
    (idx : ℕ) : Except PyErr (List ℚ × ℚ) :=
  if P.sequencing_gap > 0 ∧ idx > 0 then do
    let prev ← listGet seqList (idx - 1)
    let sd ← seqDegOpt prev.1.end_ entry.1.start P.sequencing_gap
    .ok ([sd], sd)
  else .ok ([], 1)

/-- One iteration of the scoring loop over the positions of a sequence:
looks up the Fact node `f{idx}` of the query and runs the three branches;
returns the note degrees of this position, the interval-degree contribution
to slot `idx - 1`, and the rendering triple. -/
def scorePosition (q : ParsedQuery) (P : FuzzyParams) (intervals : List IntervalVal)
    (dur_ratios : List (Option ℚ)) (seqList : List SeqEntry)
    (ie : ℕ × SeqEntry) : Except PyErr (List ℚ × List ℚ × (ℚ × ℚ × ℚ)) := do
  let query_note ← qlookup q (String.append "f" (toString ie.1))
  let pv ← pitchBranch P intervals ie.2 ie.1 query_note
  let dv ← durationBranch P dur_ratios ie.2 ie.1 query_note
  let sv ← seqBranch P seqList ie.2 ie.1
  .ok (pv.1 ++ dv.1 ++ sv.1, pv.2.1, (pv.2.2, dv.2, sv.2))

/-- Python `int(s)` on a nonnegative decimal string. -/
def pyNat (s : String) : Except PyErr ℕ :=
  if s.data ≠ [] ∧ s.data.all Char.isDigit then .ok (digitsVal s.data)
  else .error .valueError

/-- Appends a value to the `i`-th inner list (`IndexError` out of range). -/
def listAppendAt {α : Type} (l : List (List α)) (i : ℕ) (x : α) :
    Except PyErr (List (List α)) :=
  if h : i < l.length then .ok (l.set i (l.get ⟨i, h⟩ ++ [x]))
  else .error .indexError

/-- The state of the membership-function loop: note degrees, interval
degrees, degree traces. -/
def MFState : Type := List (List ℚ) × List (List ℚ) × List (List (String × ℚ))

/-- One iteration of the membership-function loop: the `k`-th bound
attribute value is read from the row, evaluated, and appended to the
interval degrees of `int(node[1:])` (trace at `idx + 1`) for an `n…` node,
else to the note degrees of that index (the trace keeps the function name
and the unrounded degree; the source renders `'{name}-> {round(deg, 3)}'`). -/
def mfApply (mfVals : ℕ → ℚ) (ka : ℕ × MFAttr) (st : MFState) :
    Except PyErr MFState := do
  let degree := ka.2.mf (mfVals ka.1)
  let idx ← pyNat (ka.2.node_name.drop 1)
  if ka.2.node_name.data.head? = some 'n' then do
    let ideg ← listAppendAt st.2.1 idx degree
    let tr ← listAppendAt st.2.2 (idx + 1) (ka.2.mf_name, degree)
    .ok (st.1, ideg, tr)
  else do
    let ndeg ← listAppendAt st.1 idx degree
    let tr ← listAppendAt st.2.2 idx (ka.2.mf_name, degree)
    .ok (ndeg, st.2.1, tr)

/-- The membership-function loop over all bound attributes. -/
def mfLoop (mfVals : ℕ → ℚ) : List (ℕ × MFAttr) → MFState → Except PyErr MFState
  | [], st => .ok st
  | ka :: rest, st => do
    let st' ← mfApply mfVals ka st
    mfLoop mfVals rest st'

/-- The extension step (`note_degrees[idx].extend(interval_degrees[idx-1])`
for `idx > 0`). -/
def extendDegrees (nd : List (List ℚ)) (id_ : List (List ℚ)) : List (List ℚ) :=
  nd.enum.map (fun p => if p.1 > 0 then p.2 ++ id_.getD (p.1 - 1) [] else p.2)

/-- Per-position aggregation: the minimum of the degrees, `1.0` when the
position collected none. -/
def aggregateMin : List ℚ → ℚ
  | [] => 1
  | d :: ds => ds.foldl min d

/-- One note-detail tuple
`(note, pitch_deg, duration_deg, sequencing_deg, note_deg, trace)`. -/
structure NoteDetail where
  note : ChordV
  pitch_deg : ℚ
  duration_deg : ℚ
  sequencing_deg : ℚ
  note_deg : ℚ
  memb : List (String × ℚ)
deriving DecidableEq, Repr

/-- The note-detail tuples, zipped position by position. -/
def mkDetails (seqList : List SeqEntry) (agg : List ℚ) (pdg : List (ℚ × ℚ × ℚ))
    (traces : List (List (String × ℚ))) : List NoteDetail :=
  (seqList.zip (agg.zip (pdg.zip traces))).map
    (fun e => ⟨e.1.1, e.2.2.1.1, e.2.2.1.2.1, e.2.2.1.2.2, e.2.1, e.2.2.2⟩)

/-- Scores one reconstructed sequence: the per-position loop, the
membership-function loop, the interval-degree extension, the `min`
aggregation per position, and the average over positions (a sequence with
no positions raises `ZeroDivisionError` in the average). -/
def scoreSeq (q : ParsedQuery) (P : FuzzyParams) (intervals : List IntervalVal)
    (dur_ratios : List (Option ℚ)) (mfAttrs : List MFAttr) (mfVals : ℕ → ℚ)
    (seqList : List SeqEntry) :
    Except PyErr (ℚ × List NoteDetail) := do
  let pos ← exMapM (scorePosition q P intervals dur_ratios seqList) seqList.enum
  let note_degrees := pos.map (fun p => p.1)
  let interval_degrees := (pos.drop 1).map (fun p => p.2.1)
  let pdg := pos.map (fun p => p.2.2)
  let st ← mfLoop mfVals mfAttrs.enum
    (note_degrees, interval_degrees, List.replicate seqList.length [])
  let final_degrees := extendDegrees st.1 st.2.1
  let aggregated := final_degrees.map aggregateMin
  if seqList.length = 0 then .error .zeroDivisionError
  else
    .ok (aggregated.sum / seqList.length, mkDetails seqList aggregated pdg st.2.2)

/-- A scored match: source, bounds, sequence degree and note details. -/
structure MatchT where
  source : String
  start : ℚ
  end_ : ℚ
  deg : ℚ
  details : List NoteDetail
deriving DecidableEq, Repr

/-- Scores one row (already reconstructed) into a match. -/
def scoreRow (q : ParsedQuery) (P : FuzzyParams) (intervals : List IntervalVal)
    (dur_ratios : List (Option ℚ)) (mfAttrs : List MFAttr)
    (pr : RawRow × List SeqEntry) : Except PyErr MatchT := do
  let sd ← scoreSeq q P intervals dur_ratios mfAttrs pr.1.mfVal pr.2
  .ok ⟨pr.1.source, pr.1.start, pr.1.end_, sd.1, sd.2⟩

/-- The descending-by-degree comparison of the final sort. -/
def matchGE (a b : MatchT) : Prop := b.deg ≤ a.deg

instance : DecidableRel matchGE := fun a b => inferInstanceAs (Decidable (b.deg ≤ a.deg))

instance : IsTotal MatchT matchGE := ⟨fun a b => le_total b.deg a.deg⟩

instance : IsTrans MatchT matchGE := ⟨fun _ _ _ h1 h2 => le_trans h2 h1⟩

/-- Python's stable `list.sort(key=..., reverse=True)`: a stable sort,
descending by degree. -/
def sortMatches (l : List MatchT) : List MatchT := List.insertionSort matchGE l

/-- `process_results.get_ordered_results_2`: the ranking engine.  The
extraction of the parsed query, the fuzzy parameters and the
membership-function bindings from the query text is performed by the absent
`src.core.extract_notes_from_query` module and is modelled from the spec as
the already-parsed inputs `q`, `P` and `mfAttrs`.  The engine computes the
transposition intervals and homothety ratios of the query, reconstructs all
rows, scores them, keeps those whose sequence degree reaches `alpha` and
sorts them by degree, descending and stable. -/
def get_ordered_results_2 (q : ParsedQuery) (P : FuzzyParams)
    (mfAttrs : List MFAttr) (rows : List RawRow) : Except PyErr (List MatchT) := do
  let intervals ← transIntervals q P.allow_transpose
  let dur_ratios ← homRatios q P.allow_homothety
  let seqs ← exMapM (reconstructRow q P) rows
  let scored ← exMapM (scoreRow q P intervals dur_ratios mfAttrs) (rows.zip seqs)
  .ok (sortMatches (scored.filter (fun m => P.alpha ≤ m.deg)))

/-- Inserting a match of degree `k` into a list places it before every
later-retrieved match of the same degree and after no match of smaller
degree: filtering the degree class `k` puts it first. -/
theorem filter_orderedInsert_eq (x : MatchT) (k : ℚ) (hx : x.deg = k) :
    ∀ l, (List.orderedInsert matchGE x l).filter (fun m => m.deg = k) =
      x :: l.filter (fun m => m.deg = k)
  | [] => by simp [List.orderedInsert, hx]
  | b :: l => by
    rw [List.orderedInsert]
    by_cases h : matchGE x b
    · rw [if_pos h, List.filter_cons, List.filter_cons]
      simp [hx]
    · rw [if_neg h]
      have hb : ¬ (b.deg = k) := by
        rw [matchGE] at h
        push_neg at h
        rw [← hx]
        exact ne_of_gt h
      rw [List.filter_cons, List.filter_cons]
      simp only [show (decide (b.deg = k)) = false from decide_eq_false hb,
        Bool.false_eq_true, if_false]
      exact filter_orderedInsert_eq x k hx l

/-- Inserting a match of another degree leaves the degree class `k`
unchanged. -/
theorem filter_orderedInsert_ne (x : MatchT) (k : ℚ) (hx : ¬ x.deg = k) :
    ∀ l, (List.orderedInsert matchGE x l).filter (fun m => m.deg = k) =
      l.filter (fun m => m.deg = k)
  | [] => by simp [List.orderedInsert, hx]
  | b :: l => by
    rw [List.orderedInsert]
    by_cases h : matchGE x b
    · rw [if_pos h, List.filter_cons]
      simp [hx]
    · rw [if_neg h, List.filter_cons, List.filter_cons]
      rw [filter_orderedInsert_ne x k hx l]

/-- Stability of the final sort: within each degree class the retrieval
order is preserved. -/
theorem filter_sortMatches (k : ℚ) :
    ∀ l : List MatchT, (sortMatches l).filter (fun m => m.deg = k) =
      l.filter (fun m => m.deg = k)
  | [] => rfl
  | x :: l => by
    rw [sortMatches, List.insertionSort, List.filter_cons]
    by_cases hx : x.deg = k
    · rw [filter_orderedInsert_eq x k hx, ← sortMatches, filter_sortMatches k l]
      simp [hx]
    · rw [filter_orderedInsert_ne x k hx, ← sortMatches, filter_sortMatches k l]
      simp [hx]

/-- A reconstructed sequence has one entry per event node. -/
theorem reconSeq_length (q : ParsedQuery) (P : FuzzyParams) (r : RawRow) :
    ∀ (l : List (String × NodeAttrs)) (en fn : ℕ) (s : List SeqEntry),
      reconSeq q P r en fn l = .ok s → s.length = l.length
  | [], _, _, s, h => by
    rw [reconSeq] at h
    injection h with h
    subst h
    rfl
  | p :: rest, en, fn, s, h => by
    rw [reconSeq] at h
    rcases bind_ok_inv h with ⟨pitches, _, h⟩
    rcases bind_ok_inv h with ⟨dur, _, h⟩
    rcases bind_ok_inv h with ⟨note, _, h⟩
    rcases bind_ok_inv h with ⟨rest', hrest, h⟩
    injection h with h
    rw [← h]
    simp [reconSeq_length q P r rest _ _ rest' hrest]

/-- An `exMapM` that succeeds before position `j` and fails at `j` fails as
a whole with that error. -/
theorem exMapM_error_at {α β : Type} (f : α → Except PyErr β) (e : PyErr) :
    ∀ (l : List α) (j : ℕ) (hj : j < l.length),
      (∀ i (h : i < l.length), i < j → ∃ b, f (l.get ⟨i, h⟩) = .ok b) →
      f (l.get ⟨j, hj⟩) = .error e → exMapM f l = .error e
  | [], j, hj, _, _ => absurd hj (Nat.not_lt_zero j)
  | a :: l, 0, _, _, herr => by
    rw [exMapM]
    rw [show a = (a :: l).get ⟨0, by simp⟩ from rfl, herr]
    rfl
  | a :: l, j + 1, hj, hok, herr => by
    rw [exMapM]
    rcases hok 0 (by simp) (Nat.succ_pos j) with ⟨b, hb⟩
    rw [show f a = f ((a :: l).get ⟨0, by simp⟩) from rfl, hb, pyBind_ok]
    have hrec := exMapM_error_at f e l j (by simpa using hj)
      (fun i h hij => hok (i + 1) (by simpa using h) (by omega))
      (by simpa using herr)
    rw [hrec]
    rfl

/-- C6, amended: whenever `get_ordered_results_2` returns (raises no
exception), it returns exactly those reconstructed matches whose sequence
degree — the arithmetic mean over positions of the min-aggregated
per-position degrees, a position with no degrees counting as `1.0` (see
`scoreSeq` and `aggregateMin`) — is at least alpha, sorted by degree in
descending order, with ties kept in their original retrieval order (the
filter of each degree class is unchanged by the sort). -/
theorem claim_C6_amended (q : ParsedQuery) (P : FuzzyParams) (mfAttrs : List MFAttr)
    (rows : List RawRow) (out : List MatchT)
    (hok : get_ordered_results_2 q P mfAttrs rows = .ok out) :
    ∃ intervals dur_ratios seqs ms,
      transIntervals q P.allow_transpose = .ok intervals ∧
      homRatios q P.allow_homothety = .ok dur_ratios ∧
      exMapM (reconstructRow q P) rows = .ok seqs ∧
      exMapM (scoreRow q P intervals dur_ratios mfAttrs) (rows.zip seqs) = .ok ms ∧
      List.Sorted matchGE out ∧
      (∀ k : ℚ, out.filter (fun m => m.deg = k) =
        (ms.filter (fun m => P.alpha ≤ m.deg)).filter (fun m => m.deg = k)) := by
  rw [get_ordered_results_2] at hok
  rcases bind_ok_inv hok with ⟨intervals, h1, hok⟩
  rcases bind_ok_inv hok with ⟨dur_ratios, h2, hok⟩
  rcases bind_ok_inv hok with ⟨seqs, h3, hok⟩
  rcases bind_ok_inv hok with ⟨ms, h4, hok⟩
  injection hok with hok
  subst hok
  refine ⟨intervals, dur_ratios, seqs, ms, h1, h2, h3, h4, ?_, ?_⟩
  · exact List.sorted_insertionSort matchGE _
  · intro k
    exact filter_sortMatches k _

def sampleRow : RawRow := ⟨fun _ => some (1/4), fun _ => some 0,
  fun i => some (i : ℚ), fun i => some ((i : ℚ) + 1), fun _ => none,
  fun _ => none, fun _ => none, fun _ => some "c", fun _ => some 4,
  fun _ => none, fun _ => none, "src", 0, 2, fun _ => 0⟩

theorem durq : Duration.ofOpt (some ((4 : ℚ)⁻¹)) = .ok (some 4) := by
  norm_num [Duration.ofOpt, Duration.ofFloat, Duration.from_float, Duration.dur_int,
    Duration.dur_float, Duration.dur_float_dotted, pyIndex, Except.map]

theorem mk3c4 : Pitch.mk3 (some "c") (some 4) none = .ok ⟨some "c", some 4, none⟩ := by decide

def pvC4 : PitchV := ⟨some "c", some 4, none⟩

def chordAt (s e : ℚ) : ChordV := ⟨[pvC4], some 4, some 0, some s, some e, none⟩

theorem sample_recon (P : FuzzyParams) (ht : P.allow_transpose = false)
    (hh : P.allow_homothety = false) :
    reconstructRow c9q P sampleRow =
    .ok [(chordAt 0 1, none, none), (chordAt 1 2, none, none)] := by
  rw [reconstructRow]
  simp +decide [eventNodes, c9q, List.filter, reconSeq, reconPitches, sampleRow, mk3c4,
    durq, mkChord, pyBind_ok, chordAt, pvC4, ht, hh]
  norm_num

def P6 : FuzzyParams := ⟨0, 1, 0, 0, false, false⟩

def out6 : List MatchT :=
  [⟨"src", 0, 2, 1, [⟨chordAt 0 1, 1, 1, 1, 1, []⟩, ⟨chordAt 1 2, 1, 1, 1, 1, []⟩]⟩]

theorem c6w_eval : get_ordered_results_2 c9q P6 [] [sampleRow] = .ok out6 := by
  rw [get_ordered_results_2]
  simp only [P6, pyBind_ok, show transIntervals c9q false = Except.ok [] from rfl,
    show homRatios c9q false = Except.ok [] from rfl]
  simp only [exMapM, sample_recon ⟨0, 1, 0, 0, false, false⟩ rfl rfl, pyBind_ok,
    List.zip, List.zipWith]
  simp +decide [out6, scoreRow, scoreSeq, scorePosition, qlookup, c9q, pitchBranch,
    durationBranch, seqBranch, mfLoop, extendDegrees, aggregateMin, mkDetails,
    sortMatches, List.insertionSort, List.orderedInsert, matchGE, List.enum,
    List.enumFrom, List.filter, List.find?, exMapM, listGet, pyBind_ok,
    List.replicate, sampleRow, chordAt, pvC4]

/-- C6, witness for the amended theorem: a concrete query and row on which
`get_ordered_results_2` returns normally; the amended decomposition holds
there. -/
theorem claim_C6_amended_witness :
    get_ordered_results_2 c9q P6 [] [sampleRow] = .ok out6 ∧
    (∃ intervals dur_ratios seqs ms,
      transIntervals c9q P6.allow_transpose = .ok intervals ∧
      homRatios c9q P6.allow_homothety = .ok dur_ratios ∧
      exMapM (reconstructRow c9q P6) [sampleRow] = .ok seqs ∧
      exMapM (scoreRow c9q P6 intervals dur_ratios []) ([sampleRow].zip seqs) = .ok ms ∧
      List.Sorted matchGE out6 ∧
      (∀ k : ℚ, out6.filter (fun m => m.deg = k) =
        (ms.filter (fun m => P6.alpha ≤ m.deg)).filter (fun m => m.deg = k))) :=
  ⟨c6w_eval, claim_C6_amended c9q P6 [] [sampleRow] out6 c6w_eval⟩

/-- C6, counterexample: with a positive pitch tolerance and transposition
disabled, `get_ordered_results_2` raises `TypeError` on the same query and
row instead of returning the sorted filtered matches. -/
theorem claim_C6_counterexample :
    get_ordered_results_2 c9q ⟨2, 1, 0, 0, false, false⟩ [] [sampleRow] =
      .error .typeError := by
  rw [get_ordered_results_2]
  simp only [pyBind_ok, show transIntervals c9q false = Except.ok [] from rfl,
    show homRatios c9q false = Except.ok [] from rfl]
  simp only [exMapM, sample_recon ⟨2, 1, 0, 0, false, false⟩ rfl rfl, pyBind_ok,
    List.zip, List.zipWith]
  simp +decide [scoreRow, scoreSeq, scorePosition, qlookup, c9q, pitchBranch,
    durationBranch, seqBranch, mfLoop, extendDegrees, aggregateMin, mkDetails,
    List.enum, List.enumFrom, List.filter, List.find?, exMapM, listGet, pyBind_ok,
    List.replicate, sampleRow, chordAt, pvC4, fco_c4]

/-- A raw database row with a malformed pitch class letter. -/
def badRow : RawRow := ⟨fun _ => some (1/4), fun _ => some 0,
  fun i => some (i : ℚ), fun i => some ((i : ℚ) + 1), fun _ => none,
  fun _ => none, fun _ => none, fun _ => some "z", fun _ => some 4,
  fun _ => none, fun _ => none, "src", 0, 2, fun _ => 0⟩

theorem mk3z : Pitch.mk3 (some "z") (some 4) none = .error .valueError := by decide

theorem badRow_recon (P : FuzzyParams) :
    reconstructRow c9q P badRow = .error .valueError := by
  rw [reconstructRow]
  simp [eventNodes, c9q, List.filter, reconSeq, reconPitches, badRow, mk3z,
    pyBind_err, pyBind_ok]

/-- C2, counterexample: a query meeting the claim's precondition
(`pitch_distance > 0`, transposition disabled, position `f0` specifying
both a pitch class and an octave) and a non-empty raw result list on which
`get_ordered_results_2` raises `ValueError` — not `TypeError` — because the
row's malformed pitch letter aborts reconstruction first. -/
theorem claim_C2_counterexample :
    get_ordered_results_2 c9q ⟨1, 1, 0, 0, false, false⟩ [] [badRow] =
      .error .valueError ∧ PyErr.valueError ≠ PyErr.typeError := by
  constructor
  · rw [get_ordered_results_2]
    simp only [pyBind_ok, show transIntervals c9q false = Except.ok [] from rfl,
      show homRatios c9q false = Except.ok [] from rfl]
    simp only [exMapM, badRow_recon, pyBind_err]
  · decide

/-- The pitch branch skips a position whose Fact node lacks a pitch class
or an octave, when transposition is off (whatever the pitch tolerance). -/
theorem pitchBranch_skip (P : FuzzyParams) (e : SeqEntry) (idx : ℕ)
    (fa : NodeAttrs) (htr : P.allow_transpose = false)
    (hco : fa.class_ = none ∨ fa.octave = none) :
    pitchBranch P [] e idx fa = .ok ([], [], 1) := by
  rw [pitchBranch]
  by_cases hpg : P.pitch_gap > 0
  · rw [if_pos hpg, htr, if_neg Bool.false_ne_true, if_neg]
    rcases hco with h | h <;> simp [h]
  · rw [if_neg hpg]

/-- The scoring loop skips a position whose Fact node lacks a pitch class
or an octave and carries no duration, when transposition is off and the
sequencing tolerance is zero. -/
theorem scorePosition_skip (q : ParsedQuery) (P : FuzzyParams)
    (seqList : List SeqEntry) (i : ℕ) (e : SeqEntry) (fa : NodeAttrs)
    (htr : P.allow_transpose = false) (hsg : P.sequencing_gap = 0)
    (hfa : qlookup q (String.append "f" (toString i)) = .ok fa)
    (hco : fa.class_ = none ∨ fa.octave = none) (hdur : fa.dur = none) :
    scorePosition q P [] [] seqList (i, e) = .ok ([], [], (1, 1, 1)) := by
  have hpb := pitchBranch_skip P e i fa htr hco
  have hdb : durationBranch P [] e i fa = .ok ([], 1) := by
    rw [durationBranch]
    by_cases hf : P.duration_factor ≠ 1
    · rw [if_pos hf, hdur]
    · rw [if_neg hf]
  have hsb : seqBranch P seqList e i = .ok ([], 1) := by
    rw [seqBranch, if_neg]
    intro hcon
    rw [hsg] at hcon
    exact absurd hcon.1 (lt_irrefl 0)
  rw [scorePosition]
  rw [hfa, pyBind_ok, hpb, pyBind_ok, hdb, pyBind_ok, hsb, pyBind_ok]
  rfl

/-- The scoring loop reaches the three-argument `pitch_degree` call — and
thus `TypeError` — at a position whose Fact node has both a pitch class and
an octave, when transposition is off and the pitch tolerance is
positive. -/
theorem scorePosition_hit (q : ParsedQuery) (P : FuzzyParams)
    (seqList : List SeqEntry) (j : ℕ) (e : SeqEntry) (faj : NodeAttrs)
    (pq p0 pr : PitchV)
    (hpg : 0 < P.pitch_gap) (htr : P.allow_transpose = false)
    (hfj : qlookup q (String.append "f" (toString j)) = .ok faj)
    (hcls : faj.class_ ≠ none) (hoct : faj.octave ≠ none)
    (hq : Pitch.fromClassOctave faj.class_ faj.octave = .ok pq)
    (hp0 : listGet e.1.pitches 0 = .ok p0)
    (hres : Pitch.fromClassOctave p0.class_ p0.octave = .ok pr) :
    scorePosition q P [] [] seqList (j, e) = .error .typeError := by
  have hpb : pitchBranch P [] e j faj = .error .typeError := by
    rw [pitchBranch, if_pos hpg, htr, if_neg Bool.false_ne_true,
      if_pos ⟨hcls, hoct⟩, hq, pyBind_ok, hp0, pyBind_ok, hres, pyBind_ok]
  rw [scorePosition, hfj, pyBind_ok, hpb]
  rfl

/-- The expected duration of the absolute duration branch of the scoring
loop: `1/dur`, times `3/2` on a truthy dot count. -/
def expectedDur (dots : Option ℤ) (e1 : ℚ) : ℚ :=
  match dots with
  | some k => if k ≠ 0 then e1 * (3 / 2) else e1
  | none => e1

/-- The duration branch raises `TypeError` at a position whose Fact node
carries a nonzero duration whose expected value is a canonical `Duration`,
when the duration factor is not `1` and homothety is off: the branch wraps
the expected duration in a `Duration` object and
`duration_degree_with_multiplicative_factor` divides the two `Duration`
objects, which define no division. -/
theorem durationBranch_hit (P : FuzzyParams) (dur_ratios : List (Option ℚ))
    (e : SeqEntry) (idx : ℕ) (fa : NodeAttrs) (qd ed : ℚ)
    (hdf : P.duration_factor ≠ 1) (hhom : P.allow_homothety = false)
    (hdur : fa.dur = some qd) (hqd : ¬qd = 0)
    (hexp : Duration.ofFloat (expectedDur fa.dots (1 / qd)) = .ok ed) :
    durationBranch P dur_ratios e idx fa = .error .typeError := by
  rw [durationBranch, if_pos hdf, hdur]
  cases hd : fa.dots with
  | none =>
    rw [hd] at hexp
    simp only [expectedDur] at hexp
    simp only [if_neg hqd, pyBind_ok, hhom, Bool.false_eq_true, if_false]
    rw [hexp, pyBind_ok, ddwmf_onDurObjs, if_neg hdf]
    rfl
  | some k =>
    rw [hd] at hexp
    simp only [expectedDur] at hexp
    simp only [if_neg hqd, pyBind_ok, hhom, Bool.false_eq_true, if_false]
    rw [hexp, pyBind_ok, ddwmf_onDurObjs, if_neg hdf]
    rfl

/-- The scoring loop reaches the `Duration`/`Duration` division — and thus
`TypeError` — at a position whose Fact node carries a nonzero duration but
no pitch class or octave, when the duration factor is not `1` and
transposition and homothety are off. -/
theorem scorePosition_hitDur (q : ParsedQuery) (P : FuzzyParams)
    (seqList : List SeqEntry) (j : ℕ) (e : SeqEntry) (faj : NodeAttrs)
    (qd ed : ℚ) (htr : P.allow_transpose = false)
    (hfj : qlookup q (String.append "f" (toString j)) = .ok faj)
    (hco : faj.class_ = none ∨ faj.octave = none)
    (hdf : P.duration_factor ≠ 1) (hhom : P.allow_homothety = false)
    (hdur : faj.dur = some qd) (hqd : ¬qd = 0)
    (hexp : Duration.ofFloat (expectedDur faj.dots (1 / qd)) = .ok ed) :
    scorePosition q P [] [] seqList (j, e) = .error .typeError := by
  have hpb := pitchBranch_skip P e j faj htr hco
  have hdb := durationBranch_hit P [] e j faj qd ed hdf hhom hdur hqd hexp
  rw [scorePosition, hfj, pyBind_ok, hpb, pyBind_ok, hdb]
  rfl

/-- When reconstruction of a non-empty row list succeeds and the scoring
loop of the first row's sequence skips every position before `j` but
raises `TypeError` at `j`, the whole of `get_ordered_results_2` raises
`TypeError`. -/
theorem gor2_error_at (q : ParsedQuery) (P : FuzzyParams)
    (mfAttrs : List MFAttr) (r0 : RawRow) (rrest : List RawRow)
    (seqs : List (List SeqEntry)) (s0 : List SeqEntry) (j : ℕ)
    (htr : P.allow_transpose = false) (hhom : P.allow_homothety = false)
    (hrec : exMapM (reconstructRow q P) (r0 :: rrest) = .ok seqs)
    (hr0 : reconstructRow q P r0 = .ok s0)
    (hj : j < s0.length)
    (hskip : ∀ i (hi : i < s0.length), i < j →
      ∃ b, scorePosition q P [] [] s0 (i, s0.get ⟨i, hi⟩) = .ok b)
    (hhit : scorePosition q P [] [] s0 (j, s0.get ⟨j, hj⟩) = .error .typeError) :
    get_ordered_results_2 q P mfAttrs (r0 :: rrest) = .error .typeError := by
  have hrec' := hrec
  rw [exMapM] at hrec'
  rcases bind_ok_inv hrec' with ⟨b, hb, h2⟩
  rcases bind_ok_inv h2 with ⟨bs, hbs, h3⟩
  rw [hr0] at hb
  injection hb with hb
  subst hb
  injection h3 with h3
  subst h3
  have hpos : exMapM (scorePosition q P [] [] s0) s0.enum = .error .typeError := by
    apply exMapM_error_at (scorePosition q P [] [] s0) PyErr.typeError s0.enum j
      (by simpa using hj)
    · intro i h hij
      have hi : i < s0.length := by simpa using h
      have henum : (s0.enum).get ⟨i, h⟩ = (i, s0.get ⟨i, hi⟩) := by
        simp [List.get_eq_getElem, List.getElem_enum]
      rw [henum]
      exact hskip i hi hij
    · have henum : (s0.enum).get ⟨j, by simpa using hj⟩ = (j, s0.get ⟨j, hj⟩) := by
        simp [List.get_eq_getElem, List.getElem_enum]
      rw [henum]
      exact hhit
  have hsr : scoreRow q P [] [] mfAttrs (r0, s0) = .error .typeError := by
    rw [scoreRow]
    rw [show scoreSeq q P [] [] mfAttrs (r0, s0).1.mfVal (r0, s0).2 =
      Except.error PyErr.typeError from by rw [scoreSeq, hpos]; rfl]
    rfl
  rw [get_ordered_results_2,
    show transIntervals q P.allow_transpose = Except.ok [] from by rw [htr]; rfl,
    pyBind_ok,
    show homRatios q P.allow_homothety = Except.ok [] from by rw [hhom]; rfl,
    pyBind_ok, hrec, pyBind_ok, List.zip_cons_cons, exMapM,
    show scoreRow q P [] [] mfAttrs (r0, s0) = Except.error PyErr.typeError from hsr]
  rfl

/-- C2, amended: `get_ordered_results_2` raises `TypeError` under either of
the claim's two triggers, given that the rest of the scoring is silent
(transposition and homothety off, zero sequencing tolerance,
reconstruction of the non-empty row list succeeding, every query position
before `j` lacking a pitch class or an octave and carrying no duration).
First half (pitch trigger): the pitch tolerance is positive and position
`j` specifies a well-formed pitch class and octave matched against a chord
with a well-formed first pitch — the call site passes three arguments to
the five-parameter `pitch_degree`.  Second half (duration trigger): the
duration factor is not `1` and position `j` carries a nonzero duration
whose expected value is a canonical `Duration` —
`duration_degree_with_multiplicative_factor` then divides the two
`Duration` objects, which define no division. -/
theorem claim_C2_amended :
    (∀ (q : ParsedQuery) (P : FuzzyParams) (mfAttrs : List MFAttr)
       (r0 : RawRow) (rrest : List RawRow) (seqs : List (List SeqEntry))
       (s0 : List SeqEntry) (j : ℕ) (faj : NodeAttrs) (pq p0 pr : PitchV),
      0 < P.pitch_gap → P.allow_transpose = false →
      P.allow_homothety = false → P.sequencing_gap = 0 →
      exMapM (reconstructRow q P) (r0 :: rrest) = .ok seqs →
      reconstructRow q P r0 = .ok s0 →
      ∀ hj : j < s0.length,
      (∀ i, i < j → ∃ fa, qlookup q (String.append "f" (toString i)) = .ok fa ∧
        (fa.class_ = none ∨ fa.octave = none) ∧ fa.dur = none) →
      qlookup q (String.append "f" (toString j)) = .ok faj →
      faj.class_ ≠ none → faj.octave ≠ none →
      Pitch.fromClassOctave faj.class_ faj.octave = .ok pq →
      listGet ((s0.get ⟨j, hj⟩).1.pitches) 0 = .ok p0 →
      Pitch.fromClassOctave p0.class_ p0.octave = .ok pr →
      get_ordered_results_2 q P mfAttrs (r0 :: rrest) = .error .typeError) ∧
    (∀ (q : ParsedQuery) (P : FuzzyParams) (mfAttrs : List MFAttr)
       (r0 : RawRow) (rrest : List RawRow) (seqs : List (List SeqEntry))
       (s0 : List SeqEntry) (j : ℕ) (faj : NodeAttrs) (qd ed : ℚ),
      P.duration_factor ≠ 1 → P.allow_transpose = false →
      P.allow_homothety = false → P.sequencing_gap = 0 →
      exMapM (reconstructRow q P) (r0 :: rrest) = .ok seqs →
      reconstructRow q P r0 = .ok s0 →
      j < s0.length →
      (∀ i, i < j → ∃ fa, qlookup q (String.append "f" (toString i)) = .ok fa ∧
        (fa.class_ = none ∨ fa.octave = none) ∧ fa.dur = none) →
      qlookup q (String.append "f" (toString j)) = .ok faj →
      (faj.class_ = none ∨ faj.octave = none) →
      faj.dur = some qd → ¬qd = 0 →
      Duration.ofFloat (expectedDur faj.dots (1 / qd)) = .ok ed →
      get_ordered_results_2 q P mfAttrs (r0 :: rrest) = .error .typeError) := by
  constructor
  · intro q P mfAttrs r0 rrest seqs s0 j faj pq p0 pr hpg htr hhom hsg hrec hr0 hj
      hlow hfj hcls hoct hq hp0 hres
    apply gor2_error_at q P mfAttrs r0 rrest seqs s0 j htr hhom hrec hr0 hj
    · intro i hi hij
      rcases hlow i hij with ⟨fa, hfa, hco, hdur⟩
      exact ⟨_, scorePosition_skip q P s0 i _ fa htr hsg hfa hco hdur⟩
    · exact scorePosition_hit q P s0 j _ faj pq p0 pr hpg htr hfj hcls hoct hq hp0 hres
  · intro q P mfAttrs r0 rrest seqs s0 j faj qd ed hdf htr hhom hsg hrec hr0 hj
      hlow hfj hco hdur hqd hexp
    apply gor2_error_at q P mfAttrs r0 rrest seqs s0 j htr hhom hrec hr0 hj
    · intro i hi hij
      rcases hlow i hij with ⟨fa, hfa, hcoi, hduri⟩
      exact ⟨_, scorePosition_skip q P s0 i _ fa htr hsg hfa hcoi hduri⟩
    · exact scorePosition_hitDur q P s0 j _ faj qd ed htr hfj hco hdf hhom hdur hqd hexp

def P2 : FuzzyParams := ⟨1, 1, 0, 0, false, false⟩

def s0c : List SeqEntry := [(chordAt 0 1, none, none), (chordAt 1 2, none, none)]

def fa0 : NodeAttrs :=
  ⟨"Fact", some "c", some 4, none, none, none, none, none, none, none, []⟩

theorem c2w_rec : exMapM (reconstructRow c9q P2) [sampleRow] = .ok [s0c] := by
  rw [exMapM, sample_recon P2 rfl rfl]
  rfl

/-- A one-event query whose Fact node carries a duration but no pitch
class or octave (the DSL generator `utils.py` writes `dur` inside the Fact
braces). -/
def c2qB : ParsedQuery := [
  ("e0", ⟨"Event", none, none, none, none, some 4, none, none, none, none, ["f0"]⟩),
  ("f0", ⟨"Fact", none, none, none, none, some 4, none, none, none, none, []⟩)]

def PB : FuzzyParams := ⟨0, 2, 0, 0, false, false⟩

def s0B : List SeqEntry := [(chordAt 0 1, none, none)]

def fa0B : NodeAttrs :=
  ⟨"Fact", none, none, none, none, some 4, none, none, none, none, []⟩

theorem sampleB_recon (P : FuzzyParams) (ht : P.allow_transpose = false)
    (hh : P.allow_homothety = false) :
    reconstructRow c2qB P sampleRow = .ok [(chordAt 0 1, none, none)] := by
  rw [reconstructRow]
  simp +decide [eventNodes, c2qB, List.filter, reconSeq, reconPitches, sampleRow,
    mk3c4, durq, mkChord, pyBind_ok, chordAt, pvC4, ht, hh]

theorem c2wB_rec : exMapM (reconstructRow c2qB PB) [sampleRow] = .ok [s0B] := by
  rw [exMapM, sampleB_recon PB rfl rfl]
  rfl

/-- Evaluation helper: the expected duration `1/4` (a quarter, no dots) is
a canonical `Duration`. -/
theorem ofFloat_quarter : Duration.ofFloat (expectedDur fa0B.dots (1 / 4)) = .ok 4 := by
  norm_num [expectedDur, fa0B, Duration.ofFloat, Duration.from_float, Duration.dur_int,
    Duration.dur_float, Duration.dur_float_dotted, pyIndex]

/-- C2, witness for the amended theorem: both halves hold at concrete
inputs.  Pitch half: on `c9q` with pitch tolerance `1`, position `0`
specifies a pitch class and octave and the call raises `TypeError`.
Duration half: on `c2qB` with duration factor `2`, position `0` carries
the duration `4` and the call raises `TypeError`. -/
theorem claim_C2_amended_witness :
    ((0 : ℚ) < P2.pitch_gap ∧
     exMapM (reconstructRow c9q P2) [sampleRow] = .ok [s0c] ∧
     qlookup c9q (String.append "f" (toString 0)) = .ok fa0 ∧
     fa0.class_ ≠ none ∧ fa0.octave ≠ none ∧
     get_ordered_results_2 c9q P2 [] [sampleRow] = .error .typeError) ∧
    (PB.duration_factor ≠ 1 ∧
     exMapM (reconstructRow c2qB PB) [sampleRow] = .ok [s0B] ∧
     qlookup c2qB (String.append "f" (toString 0)) = .ok fa0B ∧
     fa0B.dur = some 4 ∧
     get_ordered_results_2 c2qB PB [] [sampleRow] = .error .typeError) :=
  ⟨⟨by norm_num [P2], c2w_rec, by decide, by decide, by decide,
    claim_C2_amended.1 c9q P2 [] sampleRow [] [s0c] s0c 0 fa0 pvC4 pvC4 pvC4
      (by norm_num [P2]) rfl rfl rfl c2w_rec (sample_recon P2 rfl rfl)
      (by decide) (fun i h => absurd h (Nat.not_lt_zero i)) (by decide)
      (by decide) (by decide) fco_c4 (by decide) fco_c4⟩,
   ⟨by decide, c2wB_rec, by decide, rfl,
    claim_C2_amended.2 c2qB PB [] sampleRow [] [s0B] s0B 0 fa0B 4 4
      (by decide) rfl rfl rfl c2wB_rec (sampleB_recon PB rfl rfl)
      (by decide) (fun i h => absurd h (Nat.not_lt_zero i)) (by decide)
      (Or.inl rfl) rfl (by decide) ofFloat_quarter⟩⟩
